import Mathlib

/-! Boot decision of the TREZOR first-stage loader (`bootloader/bootloader.c`)

A shallow embedding of `bootloader.c` as compiled for the loader itself, that is
with `APPVER` undefined, so every `#ifndef APPVER` block is part of the program.

* Flash is a byte-addressed map; `FLASH_PTR` is the identity on addresses.
* The processor is little endian (Cortex-M): a `uint32_t` is read and stored
  lowest byte first.
* Calls into other translation units (display, timer, USB, oracle) are recorded
  as events of a trace, in program order.
* `shutdown`, `jump_to_firmware` and `usbLoop` are defined outside `bootloader.c`;
  following the specification (Halt, Transfer and Recovery are terminal) and the
  `noreturn` attribute of `load_app`, they do not return: a run ends there.
* The button samples are the successive values of the global `button` right
  after each `buttonUpdate()`.  A run is evaluated on the finite prefix of the
  samples that has arrived so far; when the prefix is used up inside a polling
  loop the run is blocked in that loop.
-/

namespace Bootloader

/-! ## Constants that live in headers outside `bootloader.c` -/

/-- Constants taken from `memory.h`, `buttons.h`, `signatures.h`, `bootloader.h`
and the linker script.  They are parameters of the development. -/
structure Board where
  FLASH_FWHEADER_MAGIC : Nat
  FLASH_FWHEADER_CODELEN : Nat
  FLASH_APP_START : Nat
  FLASH_APP_LEN : Nat
  ram_start : Nat
  ram_end : Nat
  BTN_PIN_YES : Nat
  BTN_PIN_NO : Nat
  SIG_OK : Int
  VERSION : String

/-- A concrete board used to evaluate the definitions. -/
def sampleBoard : Board where
  FLASH_FWHEADER_MAGIC := 0x08010000
  FLASH_FWHEADER_CODELEN := 0x08010004
  FLASH_APP_START := 0x08010400
  FLASH_APP_LEN := 0xEFC00
  ram_start := 0x20000000
  ram_end := 0x20020000
  BTN_PIN_YES := 4
  BTN_PIN_NO := 32
  SIG_OK := 0x5A3CA5C3
  VERSION := "1.4.0"

/-! ## Flash and the image header -/

/-- Byte-addressed flash; a cell holds the value of its content modulo 256. -/
abbrev Flash := Nat → Nat

/-- One byte of flash, `FLASH_PTR(a)[0]`. -/
def readByte (f : Flash) (a : Nat) : Nat := f a % 256

/-- Little-endian `uint32_t` load, `*((const uint32_t *)FLASH_PTR(a))`. -/
def readU32 (f : Flash) (a : Nat) : Nat :=
  readByte f a + 2 ^ 8 * readByte f (a + 1) + 2 ^ 16 * readByte f (a + 2)
    + 2 ^ 24 * readByte f (a + 3)

/-- The constant `FIRMWARE_MAGIC = 0x525a5254`. -/
def FIRMWARE_MAGIC : Nat := 0x525a5254

/-- Byte `i` of a `uint32_t` object in memory (little endian). -/
def u32Byte (v : Nat) (i : Nat) : Nat := v / 2 ^ (8 * i) % 256

/-- The C library `memcmp(FLASH_PTR(a), &v, n)` for a `uint32_t` object `v`:
zero when the first `n` bytes agree, otherwise the difference of the first
pair of bytes that differ. -/
def memcmp (f : Flash) (a : Nat) (v : Nat) : Nat → Nat → Int
  | _, 0 => 0
  | i, n + 1 =>
    if readByte f (a + i) = u32Byte v i then memcmp f a v (i + 1) n
    else (readByte f (a + i) : Int) - (u32Byte v i : Int)

/-- The function `firmware_present` of `bootloader.c`. -/
def firmware_present (B : Board) (f : Flash) : Bool :=
  if memcmp f B.FLASH_FWHEADER_MAGIC FIRMWARE_MAGIC 0 4 ≠ 0 then false
  else if readU32 f B.FLASH_FWHEADER_CODELEN < 8192 then false
  else if readU32 f B.FLASH_FWHEADER_CODELEN > B.FLASH_APP_LEN then false
  else true

/-- Flash holding the four bytes of `magic` at the magic field and the four
bytes of `len` at the length field of `sampleBoard`, zero elsewhere. -/
def headerFlash (magic len : Nat) : Flash := fun a =>
  if 0x08010000 ≤ a ∧ a < 0x08010004 then u32Byte magic (a - 0x08010000)
  else if 0x08010004 ≤ a ∧ a < 0x08010008 then u32Byte len (a - 0x08010004)
  else 0

/-! ## Events, buttons and runs -/

/-- The global `button` as left by `buttonUpdate()`: the two release signals
read by `bootloader.c`. -/
structure Button where
  YesUp : Bool
  NoUp : Bool

/-- Icons passed to `layoutDialog`. -/
inductive Icon where
  | question
  | error
  | warning

/-- Bitmaps passed to `oledDrawBitmap`. -/
inductive Bitmap where
  | logo64
  | logo64_empty

/-- Calls and assignments of `bootloader.c`, in the order they are executed.
A `NULL` argument is `none`. -/
inductive Event where
  | setup
  | stack_chk_guard (seed : Nat)
  | memory_protect
  | oledInit
  | gpio_port_read (state : Nat)
  | oledClear
  | oledDrawBitmap (x y : Nat) (bmp : Bitmap)
  | oledDrawStringCenter (x y : Nat) (text : String)
  | oledRefresh
  | signatures_ok (ret : Int) (hash : List Nat)
  | show_unofficial_warning (hash : List Nat)
  | layoutDialog (icon : Icon) (btnNo btnYes desc : Option String)
      (line1 line2 line3 line4 line5 line6 : Option String)
  | delay (n : Nat)
  | buttonUpdate (b : Button)
  | layoutFirmwareHash (hash : List Nat)
  | show_halt
  | shutdown
  | timer_init
  | load_app (signed_firmware : Int)
  | memset_reg (start stop val : Nat)
  | jump_to_firmware (vector : Nat) (signed_firmware : Int)
  | bootloader_loop
  | usbLoop (present : Bool)

/-- How a run stands once the samples at hand are used: inside one of the three
calls that never return, or blocked in a polling loop of the ceremony. -/
inductive Exit where
  | transfer (signed_firmware : Int)
  | halt
  | recovery
  | polling (stage : Nat)
  deriving DecidableEq

/-- A run: the trace of events and where it stands. -/
structure Run where
  trace : List Event
  exit : Exit

/-- What is sampled from the outside world during one power-on. -/
structure PowerOn where
  flash : Flash
  gpio : Nat
  random : Nat
  sig_ret : Int
  sig_hash : List Nat
  samples : List Button

/-! ## Classifying events -/

/-- The oracle call. -/
def Event.is_signatures_ok : Event → Bool
  | .signatures_ok _ _ => true
  | _ => false

/-- Entry of `show_unofficial_warning`. -/
def Event.is_show_unofficial_warning : Event → Bool
  | .show_unofficial_warning _ => true
  | _ => false

/-- Entry of `show_halt`. -/
def Event.is_show_halt : Event → Bool
  | .show_halt => true
  | _ => false

/-- The call of `shutdown`. -/
def Event.is_shutdown : Event → Bool
  | .shutdown => true
  | _ => false

/-- Entry of `load_app`. -/
def Event.is_load_app : Event → Bool
  | .load_app _ => true
  | _ => false

/-- The call of `jump_to_firmware`. -/
def Event.is_jump_to_firmware : Event → Bool
  | .jump_to_firmware _ _ => true
  | _ => false

/-- Entry of `bootloader_loop`. -/
def Event.is_bootloader_loop : Event → Bool
  | .bootloader_loop => true
  | _ => false

/-- Entry of `layoutFirmwareHash`, which opens the second stage. -/
def Event.is_layoutFirmwareHash : Event → Bool
  | .layoutFirmwareHash _ => true
  | _ => false

/-- A poll of the buttons. -/
def Event.is_buttonUpdate : Event → Bool
  | .buttonUpdate _ => true
  | _ => false

/-- Whether some event of the trace satisfies `p`. -/
def calls (p : Event → Bool) (t : List Event) : Bool := t.any p

/-- Number of events of the trace that satisfy `p`. -/
def callCount (p : Event → Bool) (t : List Event) : Nat := t.countP p

/-! ## The functions of `bootloader.c` -/

/-- Modelled from the spec: `data2hex` of `util.c`, which is not among the
sources; the fixed-width hexadecimal rendering of a byte sequence, two digits
per byte, high nibble first. -/
def data2hex (data : List Nat) : String :=
  let hexdigits : List Char := "0123456789ABCDEF".toList
  String.mk (data.flatMap fun b =>
    [hexdigits.getD (b % 256 / 16) '0', hexdigits.getD (b % 16) '0'])

/-- The function `layoutFirmwareHash`: row `i` is `data2hex(hash + i * 8, 8, _)`. -/
def layoutFirmwareHash (hash : List Nat) : List Event :=
  let str (i : Nat) : Option String := some (data2hex ((hash.drop (i * 8)).take 8))
  [Event.layoutFirmwareHash hash,
   Event.layoutDialog Icon.question (some "Abort") (some "Continue")
     (some "Compare fingerprints") (str 0) (str 1) (str 2) (str 3) none none]

/-- The function `show_halt`; `shutdown` does not return. -/
def show_halt : Run where
  trace :=
    [Event.show_halt,
     Event.layoutDialog Icon.error none none none (some "Unofficial firmware")
       (some "aborted.") none (some "Unplug your TREZOR") (some "contact our support.") none,
     Event.shutdown]
  exit := Exit.halt

/-- One `do { delay(100000); buttonUpdate(); } while (!button.YesUp && !button.NoUp);`
loop run on the samples at hand.  Yields the events, and the sample on which the
loop was left together with the samples not yet consumed, or `none` when the
loop is still running after the last sample. -/
def pollButtons : List Button → List Event × Option (Button × List Button)
  | [] => ([], none)
  | b :: rest =>
    if !b.YesUp && !b.NoUp then
      let r := pollButtons rest
      (Event.delay 100000 :: Event.buttonUpdate b :: r.1, r.2)
    else
      ([Event.delay 100000, Event.buttonUpdate b], some (b, rest))

/-- The function `show_unofficial_warning`.  The second component is `none` when
the function returns to its caller, and the standing of the run otherwise. -/
def show_unofficial_warning (hash : List Nat) (samples : List Button) :
    List Event × Option Exit :=
  let t0 : List Event :=
    [Event.show_unofficial_warning hash,
     Event.layoutDialog Icon.warning (some "Abort") (some "I\x27ll take the risk") none
       (some "WARNING!") none (some "Unofficial firmware") (some "detected.") none none]
  match pollButtons samples with
  | (t1, none) => (t0 ++ t1, some (Exit.polling 1))
  | (t1, some (b1, rest1)) =>
    if b1.NoUp then
      (t0 ++ t1 ++ show_halt.trace, some show_halt.exit)
    else
      match pollButtons rest1 with
      | (t2, none) => (t0 ++ t1 ++ layoutFirmwareHash hash ++ t2, some (Exit.polling 2))
      | (t2, some (b2, _)) =>
        if b2.NoUp then
          (t0 ++ t1 ++ layoutFirmwareHash hash ++ t2 ++ show_halt.trace, some show_halt.exit)
        else
          (t0 ++ t1 ++ layoutFirmwareHash hash ++ t2, none)

/-- The function `load_app`; `jump_to_firmware` does not return. -/
def load_app (B : Board) (signed_firmware : Int) : Run where
  trace :=
    [Event.load_app signed_firmware,
     Event.memset_reg B.ram_start B.ram_end 0,
     Event.jump_to_firmware B.FLASH_APP_START signed_firmware]
  exit := Exit.transfer signed_firmware

/-- The function `bootloader_loop`; `usbLoop` does not return. -/
def bootloader_loop (B : Board) (f : Flash) : Run where
  trace :=
    [Event.bootloader_loop, Event.oledClear, Event.oledDrawBitmap 0 0 Bitmap.logo64]
    ++ (if firmware_present B f then
          [Event.oledDrawStringCenter 90 10 "TREZOR",
           Event.oledDrawStringCenter 90 30 "Bootloader",
           Event.oledDrawStringCenter 90 50 B.VERSION]
        else
          [Event.oledDrawStringCenter 90 10 "Welcome!",
           Event.oledDrawStringCenter 90 30 "Please visit",
           Event.oledDrawStringCenter 90 50 "trezor.io/start"])
    ++ [Event.oledRefresh, Event.usbLoop (firmware_present B f)]
  exit := Exit.recovery

/-- The test `(state & BTN_PIN_YES) == BTN_PIN_YES || (state & BTN_PIN_NO) == BTN_PIN_NO`
of `main` on the 16-bit port state: at least one button is unpressed. -/
def unpressed (B : Board) (gpio : Nat) : Bool :=
  let state := gpio % 2 ^ 16
  (state &&& B.BTN_PIN_YES == B.BTN_PIN_YES) || (state &&& B.BTN_PIN_NO == B.BTN_PIN_NO)

/-- The function `main`. -/
def main (B : Board) (p : PowerOn) : Run :=
  let t0 : List Event :=
    [Event.setup, Event.stack_chk_guard p.random, Event.memory_protect, Event.oledInit,
     Event.gpio_port_read (p.gpio % 2 ^ 16)]
  if firmware_present B p.flash && unpressed B p.gpio then
    let t1 : List Event :=
      [Event.oledClear, Event.oledDrawBitmap 40 0 Bitmap.logo64_empty, Event.oledRefresh,
       Event.signatures_ok p.sig_ret p.sig_hash]
    let signed_firmware := p.sig_ret
    if B.SIG_OK ≠ signed_firmware then
      match show_unofficial_warning p.sig_hash p.samples with
      | (t2, some e) => ⟨t0 ++ t1 ++ t2, e⟩
      | (t2, none) =>
        ⟨t0 ++ t1 ++ t2 ++ [Event.timer_init] ++ (load_app B signed_firmware).trace,
         (load_app B signed_firmware).exit⟩
    else
      ⟨t0 ++ t1 ++ (load_app B signed_firmware).trace, (load_app B signed_firmware).exit⟩
  else
    ⟨t0 ++ (bootloader_loop B p.flash).trace, (bootloader_loop B p.flash).exit⟩

/-- The oracle call when it returned something other than `SIG_OK`. -/
def Event.is_failed_verdict (B : Board) : Event → Bool
  | .signatures_ok ret _ => decide (B.SIG_OK ≠ ret)
  | _ => false

/-- The events of polling through the samples `l`, one `delay` and one
`buttonUpdate` per sample. -/
def polls (l : List Button) : List Event :=
  l.flatMap fun b => [Event.delay 100000, Event.buttonUpdate b]

/-- The prologue of `main` up to the presence test. -/
def bootPrologue (p : PowerOn) : List Event :=
  [Event.setup, Event.stack_chk_guard p.random, Event.memory_protect, Event.oledInit,
   Event.gpio_port_read (p.gpio % 2 ^ 16)]

/-- The events of `main` between the presence test and the verdict test. -/
def oraclePhase (p : PowerOn) : List Event :=
  [Event.oledClear, Event.oledDrawBitmap 40 0 Bitmap.logo64_empty, Event.oledRefresh,
   Event.signatures_ok p.sig_ret p.sig_hash]

/-- The first events of `show_unofficial_warning`: its entry and the warning dialog. -/
def warningScreen (hash : List Nat) : List Event :=
  [Event.show_unofficial_warning hash,
   Event.layoutDialog Icon.warning (some "Abort") (some "I\x27ll take the risk") none
     (some "WARNING!") none (some "Unofficial firmware") (some "detected.") none none]

/-- A power-on used to evaluate the definitions: a plausible image on
`sampleBoard`, the given port state, oracle result and button samples. -/
def samplePowerOn (gpio : Nat) (ret : Int) (samples : List Button) : PowerOn where
  flash := headerFlash FIRMWARE_MAGIC 8192
  gpio := gpio
  random := 7
  sig_ret := ret
  sig_hash := List.range 32
  samples := samples

/-! ## Volatile memory and decision states -/

/-- The call of `memset_reg`. -/
def Event.is_memset_reg : Event → Bool
  | .memset_reg _ _ _ => true
  | _ => false

/-- Byte-addressed volatile memory. -/
abbrev Ram := Nat → Nat

/-- Modelled from the spec: `memset_reg` of the startup code, which is not among
the sources; it fills the region `[start, stop)` with the 32-bit value `val`,
stored lowest byte first, and leaves the rest of the memory alone. -/
def memset_reg (start stop val : Nat) (ram : Ram) : Ram := fun a =>
  if start ≤ a ∧ a < stop then u32Byte val ((a - start) % 4) else ram a

/-- The decision state an event opens, ranked in the order of the state machine:
1 the authenticity check, 2 the warning stage, 3 the fingerprint stage, 4 a
terminal state (`load_app`, `show_halt` or `bootloader_loop`); `none` for the
events that open no decision state. -/
def decisionRank : Event → Option Nat
  | .signatures_ok _ _ => some 1
  | .show_unofficial_warning _ => some 2
  | .layoutFirmwareHash _ => some 3
  | .load_app _ => some 4
  | .show_halt => some 4
  | .bootloader_loop => some 4
  | _ => none

/-- Bytes `8i .. 8i+7` of a fingerprint, taken by index. -/
def hashRow (hash : List Nat) (i : Nat) : List Nat :=
  (List.range 8).map fun k => hash.getD (i * 8 + k) 0

/-! ## The image header check -/

theorem readByte_lt (f : Flash) (a : Nat) : readByte f a < 256 :=
  Nat.mod_lt _ (by decide)

theorem readU32_lt (f : Flash) (a : Nat) : readU32 f a < 2 ^ 32 := by
  have h0 := readByte_lt f a
  have h1 := readByte_lt f (a + 1)
  have h2 := readByte_lt f (a + 2)
  have h3 := readByte_lt f (a + 3)
  unfold readU32
  omega

theorem u32Byte_magic :
    u32Byte FIRMWARE_MAGIC 0 = 0x54 ∧ u32Byte FIRMWARE_MAGIC 1 = 0x52 ∧
    u32Byte FIRMWARE_MAGIC 2 = 0x5a ∧ u32Byte FIRMWARE_MAGIC 3 = 0x52 := by
  decide

/-- The `memcmp` against `FIRMWARE_MAGIC` is zero exactly when the little-endian
word stored at the address is the magic. -/
theorem memcmp_magic_eq_zero_iff (f : Flash) (a : Nat) :
    memcmp f a FIRMWARE_MAGIC 0 4 = 0 ↔ readU32 f a = FIRMWARE_MAGIC := by
  obtain ⟨m0, m1, m2, m3⟩ := u32Byte_magic
  have h0 := readByte_lt f a
  have h1 := readByte_lt f (a + 1)
  have h2 := readByte_lt f (a + 2)
  have h3 := readByte_lt f (a + 3)
  simp only [memcmp, m0, m1, m2, m3, Nat.add_zero, Nat.zero_add, Nat.reduceAdd]
  unfold readU32 FIRMWARE_MAGIC
  split_ifs <;> omega

/-- The result of `firmware_present` in terms of the two header words. -/
theorem firmware_present_eq_true_iff (B : Board) (f : Flash) :
    firmware_present B f = true ↔
      readU32 f B.FLASH_FWHEADER_MAGIC = FIRMWARE_MAGIC ∧
      8192 ≤ readU32 f B.FLASH_FWHEADER_CODELEN ∧
      readU32 f B.FLASH_FWHEADER_CODELEN ≤ B.FLASH_APP_LEN := by
  unfold firmware_present
  rw [← memcmp_magic_eq_zero_iff]
  split_ifs <;> simp_all

/-! ## The polling loop -/

theorem pollButtons_signal (b : Button) (rest : List Button)
    (h : b.YesUp = true ∨ b.NoUp = true) :
    pollButtons (b :: rest) = ([Event.delay 100000, Event.buttonUpdate b], some (b, rest)) := by
  rcases h with h | h <;> simp [pollButtons, h]

theorem pollButtons_idle_append (pre rest : List Button)
    (h : ∀ b ∈ pre, b.YesUp = false ∧ b.NoUp = false) :
    pollButtons (pre ++ rest) = (polls pre ++ (pollButtons rest).1, (pollButtons rest).2) := by
  induction pre with
  | nil => simp [polls]
  | cons b pre ih =>
    have hb := h b (List.mem_cons_self _ _)
    have ih2 := ih (fun x hx => h x (List.mem_cons_of_mem _ hx))
    simp [pollButtons, hb.1, hb.2, ih2, polls]

theorem pollButtons_idle (l : List Button)
    (h : ∀ b ∈ l, b.YesUp = false ∧ b.NoUp = false) :
    pollButtons l = (polls l, none) := by
  have := pollButtons_idle_append l [] h
  simpa [pollButtons] using this

theorem pollButtons_left (pre : List Button) (b : Button) (rest : List Button)
    (hpre : ∀ x ∈ pre, x.YesUp = false ∧ x.NoUp = false)
    (hb : b.YesUp = true ∨ b.NoUp = true) :
    pollButtons (pre ++ b :: rest) = (polls (pre ++ [b]), some (b, rest)) := by
  rw [pollButtons_idle_append pre _ hpre, pollButtons_signal b rest hb]
  simp [polls]

/-- Every outcome of the loop comes from one of the two shapes of the samples. -/
theorem pollButtons_cases (l : List Button) :
    ((∀ b ∈ l, b.YesUp = false ∧ b.NoUp = false) ∧ pollButtons l = (polls l, none)) ∨
    ∃ pre b rest, l = pre ++ b :: rest ∧ (∀ x ∈ pre, x.YesUp = false ∧ x.NoUp = false) ∧
      (b.YesUp = true ∨ b.NoUp = true) ∧
      pollButtons l = (polls (pre ++ [b]), some (b, rest)) := by
  induction l with
  | nil => left; simp [pollButtons, polls]
  | cons a l ih =>
    by_cases ha : a.YesUp = false ∧ a.NoUp = false
    · rcases ih with ⟨hall, _⟩ | ⟨pre, b, rest, hl, hpre, hb, _⟩
      · left
        have hall2 : ∀ b ∈ a :: l, b.YesUp = false ∧ b.NoUp = false := by
          intro b hb
          rcases List.mem_cons.1 hb with rfl | hb
          · exact ha
          · exact hall b hb
        exact ⟨hall2, pollButtons_idle _ hall2⟩
      · right
        have hpre2 : ∀ x ∈ a :: pre, x.YesUp = false ∧ x.NoUp = false := by
          intro x hx
          rcases List.mem_cons.1 hx with rfl | hx
          · exact ha
          · exact hpre x hx
        refine ⟨a :: pre, b, rest, by simp [hl], hpre2, hb, ?_⟩
        have := pollButtons_left (a :: pre) b rest hpre2 hb
        simpa [hl] using this
    · right
      have hs : a.YesUp = true ∨ a.NoUp = true := by
        cases hy : a.YesUp <;> cases hn : a.NoUp <;> simp_all
      exact ⟨[], a, l, rfl, by simp, hs, by simpa using pollButtons_left [] a l (by simp) hs⟩

/-! ## The ceremony, shape by shape -/

theorem ceremony_polling1 (hash : List Nat) (l : List Button)
    (h : ∀ b ∈ l, b.YesUp = false ∧ b.NoUp = false) :
    show_unofficial_warning hash l = (warningScreen hash ++ polls l, some (Exit.polling 1)) := by
  simp [show_unofficial_warning, pollButtons_idle l h, warningScreen]

theorem ceremony_reject1 (hash : List Nat) (pre : List Button) (b1 : Button)
    (rest : List Button) (hpre : ∀ b ∈ pre, b.YesUp = false ∧ b.NoUp = false)
    (h1 : b1.NoUp = true) :
    show_unofficial_warning hash (pre ++ b1 :: rest) =
      (warningScreen hash ++ polls (pre ++ [b1]) ++ show_halt.trace, some Exit.halt) := by
  simp [show_unofficial_warning, pollButtons_left pre b1 rest hpre (Or.inr h1), h1,
    warningScreen, show_halt]

theorem ceremony_polling2 (hash : List Nat) (pre : List Button) (b1 : Button)
    (mid : List Button) (hpre : ∀ b ∈ pre, b.YesUp = false ∧ b.NoUp = false)
    (hy : b1.YesUp = true) (hn : b1.NoUp = false)
    (hmid : ∀ b ∈ mid, b.YesUp = false ∧ b.NoUp = false) :
    show_unofficial_warning hash (pre ++ b1 :: mid) =
      (warningScreen hash ++ polls (pre ++ [b1]) ++ layoutFirmwareHash hash ++ polls mid,
        some (Exit.polling 2)) := by
  simp [show_unofficial_warning, pollButtons_left pre b1 mid hpre (Or.inl hy), hn,
    pollButtons_idle mid hmid, warningScreen]

theorem ceremony_reject2 (hash : List Nat) (pre : List Button) (b1 : Button)
    (mid : List Button) (b2 : Button) (post : List Button)
    (hpre : ∀ b ∈ pre, b.YesUp = false ∧ b.NoUp = false)
    (hy : b1.YesUp = true) (hn : b1.NoUp = false)
    (hmid : ∀ b ∈ mid, b.YesUp = false ∧ b.NoUp = false) (h2 : b2.NoUp = true) :
    show_unofficial_warning hash (pre ++ b1 :: (mid ++ b2 :: post)) =
      (warningScreen hash ++ polls (pre ++ [b1]) ++ layoutFirmwareHash hash
        ++ polls (mid ++ [b2]) ++ show_halt.trace, some Exit.halt) := by
  simp [show_unofficial_warning, pollButtons_left pre b1 _ hpre (Or.inl hy), hn,
    pollButtons_left mid b2 post hmid (Or.inr h2), h2, warningScreen, show_halt]

theorem ceremony_accept (hash : List Nat) (pre : List Button) (b1 : Button)
    (mid : List Button) (b2 : Button) (post : List Button)
    (hpre : ∀ b ∈ pre, b.YesUp = false ∧ b.NoUp = false)
    (hy : b1.YesUp = true) (hn : b1.NoUp = false)
    (hmid : ∀ b ∈ mid, b.YesUp = false ∧ b.NoUp = false)
    (hy2 : b2.YesUp = true) (hn2 : b2.NoUp = false) :
    show_unofficial_warning hash (pre ++ b1 :: (mid ++ b2 :: post)) =
      (warningScreen hash ++ polls (pre ++ [b1]) ++ layoutFirmwareHash hash
        ++ polls (mid ++ [b2]), none) := by
  simp [show_unofficial_warning, pollButtons_left pre b1 _ hpre (Or.inl hy), hn,
    pollButtons_left mid b2 post hmid (Or.inl hy2), hn2, warningScreen]

/-- The shapes a sequence of samples can have, as seen by the ceremony. -/
theorem samples_cases (l : List Button) :
    (∀ b ∈ l, b.YesUp = false ∧ b.NoUp = false) ∨
    (∃ pre b1 rest, l = pre ++ b1 :: rest ∧
      (∀ b ∈ pre, b.YesUp = false ∧ b.NoUp = false) ∧ b1.NoUp = true) ∨
    (∃ pre b1 mid, l = pre ++ b1 :: mid ∧
      (∀ b ∈ pre, b.YesUp = false ∧ b.NoUp = false) ∧ b1.YesUp = true ∧ b1.NoUp = false ∧
      (∀ b ∈ mid, b.YesUp = false ∧ b.NoUp = false)) ∨
    (∃ pre b1 mid b2 post, l = pre ++ b1 :: (mid ++ b2 :: post) ∧
      (∀ b ∈ pre, b.YesUp = false ∧ b.NoUp = false) ∧ b1.YesUp = true ∧ b1.NoUp = false ∧
      (∀ b ∈ mid, b.YesUp = false ∧ b.NoUp = false) ∧ b2.NoUp = true) ∨
    (∃ pre b1 mid b2 post, l = pre ++ b1 :: (mid ++ b2 :: post) ∧
      (∀ b ∈ pre, b.YesUp = false ∧ b.NoUp = false) ∧ b1.YesUp = true ∧ b1.NoUp = false ∧
      (∀ b ∈ mid, b.YesUp = false ∧ b.NoUp = false) ∧ b2.YesUp = true ∧ b2.NoUp = false) := by
  rcases pollButtons_cases l with ⟨h, _⟩ | ⟨pre, b1, rest, hl, hpre, hb1, _⟩
  · exact Or.inl h
  · right
    cases hn : b1.NoUp with
    | true => exact Or.inl ⟨pre, b1, rest, hl, hpre, hn⟩
    | false =>
      right
      have hy : b1.YesUp = true := by simpa [hn] using hb1
      rcases pollButtons_cases rest with ⟨h, _⟩ | ⟨mid, b2, post, hr, hmid, hb2, _⟩
      · exact Or.inl ⟨pre, b1, rest, hl, hpre, hy, hn, h⟩
      · right
        cases hn2 : b2.NoUp with
        | true => exact Or.inl ⟨pre, b1, mid, b2, post, by rw [hl, hr], hpre, hy, hn, hmid, hn2⟩
        | false =>
          have hy2 : b2.YesUp = true := by simpa [hn2] using hb2
          exact Or.inr ⟨pre, b1, mid, b2, post, by rw [hl, hr], hpre, hy, hn, hmid, hy2, hn2⟩

/-! ## Traces -/

theorem calls_append (q : Event → Bool) (a b : List Event) :
    calls q (a ++ b) = (calls q a || calls q b) := by
  simp [calls]

theorem calls_polls (q : Event → Bool) (l : List Button)
    (hd : q (Event.delay 100000) = false) (hb : ∀ b, q (Event.buttonUpdate b) = false) :
    calls q (polls l) = false := by
  induction l with
  | nil => rfl
  | cons b l ih =>
    simp only [calls, polls, List.flatMap_cons, List.any_append, List.any_cons, List.any_nil,
      hd, hb, Bool.or_false, Bool.false_or] at ih ⊢
    exact ih

theorem callCount_append (q : Event → Bool) (a b : List Event) :
    callCount q (a ++ b) = callCount q a + callCount q b := by
  simp [callCount]

theorem callCount_polls (l : List Button) :
    callCount Event.is_buttonUpdate (polls l) = l.length := by
  induction l with
  | nil => rfl
  | cons b l ih =>
    simp only [callCount, polls, List.flatMap_cons] at ih ⊢
    rw [List.countP_append, ih]
    simp [List.countP_cons, Event.is_buttonUpdate]
    omega

/-- If the trace starts with a segment free of `q`-events followed by a `r`-event
that is not a `q`-event, every `q`-event of the trace has a `r`-event before it. -/
theorem before_of_prefix (q r : Event → Bool) (w : Event) (hw : q w = false) (hr : r w = true) :
    ∀ (a rest pre : List Event) (e : Event) (post : List Event),
      a ++ w :: rest = pre ++ e :: post → (∀ x ∈ a, q x = false) → q e = true →
      calls r pre = true := by
  intro a
  induction a with
  | nil =>
    intro rest pre e post h _ he
    cases pre with
    | nil =>
      simp only [List.nil_append, List.cons.injEq] at h
      rw [← h.1, hw] at he
      cases he
    | cons x pre =>
      simp only [List.nil_append, List.cons_append, List.cons.injEq] at h
      simp [calls, ← h.1, hr]
  | cons y a ih =>
    intro rest pre e post h ha he
    cases pre with
    | nil =>
      simp only [List.nil_append, List.cons_append, List.cons.injEq] at h
      have := ha y (List.mem_cons_self _ _)
      rw [h.1, he] at this
      cases this
    | cons x pre =>
      simp only [List.cons_append, List.cons.injEq] at h
      have := ih rest pre e post h.2 (fun z hz => ha z (List.mem_cons_of_mem _ hz)) he
      simp only [calls, List.any_cons] at this ⊢
      simp [this]

/-! ## The shapes of a run of `main` -/

theorem main_recovery (B : Board) (p : PowerOn)
    (h : (firmware_present B p.flash && unpressed B p.gpio) = false) :
    main B p = ⟨bootPrologue p ++ (bootloader_loop B p.flash).trace, Exit.recovery⟩ := by
  simp [main, h, bootPrologue, bootloader_loop]

theorem main_signed (B : Board) (p : PowerOn)
    (h : (firmware_present B p.flash && unpressed B p.gpio) = true)
    (hs : B.SIG_OK = p.sig_ret) :
    main B p = ⟨bootPrologue p ++ oraclePhase p ++ (load_app B p.sig_ret).trace,
      Exit.transfer p.sig_ret⟩ := by
  simp [main, h, hs, bootPrologue, oraclePhase, load_app]

theorem main_failed_stop (B : Board) (p : PowerOn)
    (h : (firmware_present B p.flash && unpressed B p.gpio) = true)
    (hs : B.SIG_OK ≠ p.sig_ret) (t : List Event) (e : Exit)
    (hc : show_unofficial_warning p.sig_hash p.samples = (t, some e)) :
    main B p = ⟨bootPrologue p ++ oraclePhase p ++ t, e⟩ := by
  simp [main, h, hs, hc, bootPrologue, oraclePhase]

theorem main_failed_return (B : Board) (p : PowerOn)
    (h : (firmware_present B p.flash && unpressed B p.gpio) = true)
    (hs : B.SIG_OK ≠ p.sig_ret) (t : List Event)
    (hc : show_unofficial_warning p.sig_hash p.samples = (t, none)) :
    main B p = ⟨bootPrologue p ++ oraclePhase p ++ t ++ [Event.timer_init]
      ++ (load_app B p.sig_ret).trace, Exit.transfer p.sig_ret⟩ := by
  simp [main, h, hs, hc, bootPrologue, oraclePhase, load_app]

theorem calls_nil (q : Event → Bool) : calls q [] = false := rfl

theorem calls_cons (q : Event → Bool) (e : Event) (t : List Event) :
    calls q (e :: t) = (q e || calls q t) := by
  simp [calls]

theorem callCount_nil (q : Event → Bool) : callCount q [] = 0 := rfl

theorem callCount_cons (q : Event → Bool) (e : Event) (t : List Event) :
    callCount q (e :: t) = callCount q t + (if q e = true then 1 else 0) := by
  simp [callCount, List.countP_cons]

/-- The oracle is called with a failing verdict exactly when an image is present,
a button is unpressed and the oracle's result is not `SIG_OK`. -/
theorem failed_verdict_iff (B : Board) (p : PowerOn) :
    calls (Event.is_failed_verdict B) (main B p).trace = true ↔
      (firmware_present B p.flash && unpressed B p.gpio) = true ∧ B.SIG_OK ≠ p.sig_ret := by
  cases h : (firmware_present B p.flash && unpressed B p.gpio) with
  | false =>
    rw [main_recovery B p h]
    cases hf : firmware_present B p.flash <;>
      simp [calls_append, calls_cons, calls_nil, bootPrologue, bootloader_loop, hf,
        Event.is_failed_verdict]
  | true =>
    by_cases hs : B.SIG_OK = p.sig_ret
    · rw [main_signed B p h hs]
      simp [calls_append, calls_cons, calls_nil, bootPrologue, oraclePhase, load_app,
        Event.is_failed_verdict, hs]
    · have key : calls (Event.is_failed_verdict B) (bootPrologue p ++ oraclePhase p) = true := by
        simp [calls_append, calls_cons, calls_nil, bootPrologue, oraclePhase,
          Event.is_failed_verdict, hs]
      have : ∃ t, (main B p).trace = (bootPrologue p ++ oraclePhase p) ++ t := by
        cases hc : show_unofficial_warning p.sig_hash p.samples with
        | mk t o =>
          cases o with
          | none =>
            rw [main_failed_return B p h hs t hc]
            exact ⟨t ++ [Event.timer_init] ++ (load_app B p.sig_ret).trace, by simp⟩
          | some e =>
            rw [main_failed_stop B p h hs t e hc]
            exact ⟨t, by simp⟩
      obtain ⟨t, ht⟩ := this
      rw [ht, calls_append, key]
      simp [hs]

/-- The five shapes of a run in which the authenticity check failed. -/
theorem failed_run_cases (B : Board) (p : PowerOn)
    (h : (firmware_present B p.flash && unpressed B p.gpio) = true)
    (hs : B.SIG_OK ≠ p.sig_ret) :
    ((∀ b ∈ p.samples, b.YesUp = false ∧ b.NoUp = false) ∧
      main B p = ⟨bootPrologue p ++ oraclePhase p ++
        (warningScreen p.sig_hash ++ polls p.samples), Exit.polling 1⟩) ∨
    (∃ pre b1 rest, p.samples = pre ++ b1 :: rest ∧
      (∀ b ∈ pre, b.YesUp = false ∧ b.NoUp = false) ∧ b1.NoUp = true ∧
      main B p = ⟨bootPrologue p ++ oraclePhase p ++
        (warningScreen p.sig_hash ++ polls (pre ++ [b1]) ++ show_halt.trace), Exit.halt⟩) ∨
    (∃ pre b1 mid, p.samples = pre ++ b1 :: mid ∧
      (∀ b ∈ pre, b.YesUp = false ∧ b.NoUp = false) ∧ b1.YesUp = true ∧ b1.NoUp = false ∧
      (∀ b ∈ mid, b.YesUp = false ∧ b.NoUp = false) ∧
      main B p = ⟨bootPrologue p ++ oraclePhase p ++
        (warningScreen p.sig_hash ++ polls (pre ++ [b1]) ++ layoutFirmwareHash p.sig_hash
          ++ polls mid), Exit.polling 2⟩) ∨
    (∃ pre b1 mid b2 post, p.samples = pre ++ b1 :: (mid ++ b2 :: post) ∧
      (∀ b ∈ pre, b.YesUp = false ∧ b.NoUp = false) ∧ b1.YesUp = true ∧ b1.NoUp = false ∧
      (∀ b ∈ mid, b.YesUp = false ∧ b.NoUp = false) ∧ b2.NoUp = true ∧
      main B p = ⟨bootPrologue p ++ oraclePhase p ++
        (warningScreen p.sig_hash ++ polls (pre ++ [b1]) ++ layoutFirmwareHash p.sig_hash
          ++ polls (mid ++ [b2]) ++ show_halt.trace), Exit.halt⟩) ∨
    (∃ pre b1 mid b2 post, p.samples = pre ++ b1 :: (mid ++ b2 :: post) ∧
      (∀ b ∈ pre, b.YesUp = false ∧ b.NoUp = false) ∧ b1.YesUp = true ∧ b1.NoUp = false ∧
      (∀ b ∈ mid, b.YesUp = false ∧ b.NoUp = false) ∧ b2.YesUp = true ∧ b2.NoUp = false ∧
      main B p = ⟨bootPrologue p ++ oraclePhase p ++
        (warningScreen p.sig_hash ++ polls (pre ++ [b1]) ++ layoutFirmwareHash p.sig_hash
          ++ polls (mid ++ [b2])) ++ [Event.timer_init] ++ (load_app B p.sig_ret).trace,
        Exit.transfer p.sig_ret⟩) := by
  rcases samples_cases p.samples with hall | ⟨pre, b1, rest, hl, hpre, h1⟩ |
    ⟨pre, b1, mid, hl, hpre, hy, hn, hmid⟩ | ⟨pre, b1, mid, b2, post, hl, hpre, hy, hn, hmid, h2⟩ |
    ⟨pre, b1, mid, b2, post, hl, hpre, hy, hn, hmid, hy2, hn2⟩
  · exact Or.inl ⟨hall, main_failed_stop B p h hs _ _ (ceremony_polling1 _ _ hall)⟩
  · exact Or.inr (Or.inl ⟨pre, b1, rest, hl, hpre, h1,
      main_failed_stop B p h hs _ _ (hl ▸ ceremony_reject1 _ pre b1 rest hpre h1)⟩)
  · exact Or.inr (Or.inr (Or.inl ⟨pre, b1, mid, hl, hpre, hy, hn, hmid,
      main_failed_stop B p h hs _ _ (hl ▸ ceremony_polling2 _ pre b1 mid hpre hy hn hmid)⟩))
  · exact Or.inr (Or.inr (Or.inr (Or.inl ⟨pre, b1, mid, b2, post, hl, hpre, hy, hn, hmid, h2,
      main_failed_stop B p h hs _ _
        (hl ▸ ceremony_reject2 _ pre b1 mid b2 post hpre hy hn hmid h2)⟩)))
  · exact Or.inr (Or.inr (Or.inr (Or.inr ⟨pre, b1, mid, b2, post, hl, hpre, hy, hn, hmid,
      hy2, hn2, main_failed_return B p h hs _
        (hl ▸ ceremony_accept _ pre b1 mid b2 post hpre hy hn hmid hy2 hn2)⟩)))

/-! ## Runs with a failed authenticity check, from the shape of the samples -/

theorem run_polling1 (B : Board) (p : PowerOn)
    (h : (firmware_present B p.flash && unpressed B p.gpio) = true)
    (hs : B.SIG_OK ≠ p.sig_ret)
    (hall : ∀ b ∈ p.samples, b.YesUp = false ∧ b.NoUp = false) :
    main B p = ⟨bootPrologue p ++ oraclePhase p ++
      (warningScreen p.sig_hash ++ polls p.samples), Exit.polling 1⟩ :=
  main_failed_stop B p h hs _ _ (ceremony_polling1 _ _ hall)

theorem run_reject1 (B : Board) (p : PowerOn)
    (h : (firmware_present B p.flash && unpressed B p.gpio) = true)
    (hs : B.SIG_OK ≠ p.sig_ret) (pre : List Button) (b1 : Button) (rest : List Button)
    (hl : p.samples = pre ++ b1 :: rest)
    (hpre : ∀ b ∈ pre, b.YesUp = false ∧ b.NoUp = false) (h1 : b1.NoUp = true) :
    main B p = ⟨bootPrologue p ++ oraclePhase p ++
      (warningScreen p.sig_hash ++ polls (pre ++ [b1]) ++ show_halt.trace), Exit.halt⟩ :=
  main_failed_stop B p h hs _ _ (hl ▸ ceremony_reject1 _ pre b1 rest hpre h1)

theorem run_polling2 (B : Board) (p : PowerOn)
    (h : (firmware_present B p.flash && unpressed B p.gpio) = true)
    (hs : B.SIG_OK ≠ p.sig_ret) (pre : List Button) (b1 : Button) (mid : List Button)
    (hl : p.samples = pre ++ b1 :: mid)
    (hpre : ∀ b ∈ pre, b.YesUp = false ∧ b.NoUp = false)
    (hy : b1.YesUp = true) (hn : b1.NoUp = false)
    (hmid : ∀ b ∈ mid, b.YesUp = false ∧ b.NoUp = false) :
    main B p = ⟨bootPrologue p ++ oraclePhase p ++
      (warningScreen p.sig_hash ++ polls (pre ++ [b1]) ++ layoutFirmwareHash p.sig_hash
        ++ polls mid), Exit.polling 2⟩ :=
  main_failed_stop B p h hs _ _ (hl ▸ ceremony_polling2 _ pre b1 mid hpre hy hn hmid)

theorem run_reject2 (B : Board) (p : PowerOn)
    (h : (firmware_present B p.flash && unpressed B p.gpio) = true)
    (hs : B.SIG_OK ≠ p.sig_ret) (pre : List Button) (b1 : Button) (mid : List Button)
    (b2 : Button) (post : List Button)
    (hl : p.samples = pre ++ b1 :: (mid ++ b2 :: post))
    (hpre : ∀ b ∈ pre, b.YesUp = false ∧ b.NoUp = false)
    (hy : b1.YesUp = true) (hn : b1.NoUp = false)
    (hmid : ∀ b ∈ mid, b.YesUp = false ∧ b.NoUp = false) (h2 : b2.NoUp = true) :
    main B p = ⟨bootPrologue p ++ oraclePhase p ++
      (warningScreen p.sig_hash ++ polls (pre ++ [b1]) ++ layoutFirmwareHash p.sig_hash
        ++ polls (mid ++ [b2]) ++ show_halt.trace), Exit.halt⟩ :=
  main_failed_stop B p h hs _ _ (hl ▸ ceremony_reject2 _ pre b1 mid b2 post hpre hy hn hmid h2)

theorem run_accept (B : Board) (p : PowerOn)
    (h : (firmware_present B p.flash && unpressed B p.gpio) = true)
    (hs : B.SIG_OK ≠ p.sig_ret) (pre : List Button) (b1 : Button) (mid : List Button)
    (b2 : Button) (post : List Button)
    (hl : p.samples = pre ++ b1 :: (mid ++ b2 :: post))
    (hpre : ∀ b ∈ pre, b.YesUp = false ∧ b.NoUp = false)
    (hy : b1.YesUp = true) (hn : b1.NoUp = false)
    (hmid : ∀ b ∈ mid, b.YesUp = false ∧ b.NoUp = false)
    (hy2 : b2.YesUp = true) (hn2 : b2.NoUp = false) :
    main B p = ⟨bootPrologue p ++ oraclePhase p ++
      (warningScreen p.sig_hash ++ polls (pre ++ [b1]) ++ layoutFirmwareHash p.sig_hash
        ++ polls (mid ++ [b2])) ++ [Event.timer_init] ++ (load_app B p.sig_ret).trace,
      Exit.transfer p.sig_ret⟩ :=
  main_failed_return B p h hs _
    (hl ▸ ceremony_accept _ pre b1 mid b2 post hpre hy hn hmid hy2 hn2)

/-- In a run with a failed authenticity check the entry of the ceremony comes right
after the oracle phase. -/
theorem failed_run_prefix (B : Board) (p : PowerOn)
    (h : (firmware_present B p.flash && unpressed B p.gpio) = true)
    (hs : B.SIG_OK ≠ p.sig_ret) :
    ∃ rest, (main B p).trace =
      (bootPrologue p ++ oraclePhase p) ++ Event.show_unofficial_warning p.sig_hash :: rest := by
  rcases failed_run_cases B p h hs with ⟨_, hm⟩ | ⟨_, _, _, _, _, _, hm⟩ |
    ⟨_, _, _, _, _, _, _, _, hm⟩ | ⟨_, _, _, _, _, _, _, _, _, _, _, hm⟩ |
    ⟨_, _, _, _, _, _, _, _, _, _, _, _, hm⟩ <;>
  · rw [hm]
    exact ⟨_, by simp only [warningScreen, List.append_assoc, List.cons_append,
      List.nil_append]; rfl⟩

/-! ## Image presence (C7, C8, C9) -/

/-- C7: whenever the 4-byte magic field of the flash differs from `FIRMWARE_MAGIC`,
`firmware_present` returns false, for every declared code length, those inside
the plausible range included. -/
theorem C7_magic_mismatch_rejected (B : Board) (f : Flash)
    (hmagic : readU32 f B.FLASH_FWHEADER_MAGIC ≠ FIRMWARE_MAGIC) :
    firmware_present B f = false := by
  cases h : firmware_present B f with
  | false => rfl
  | true => exact absurd ((firmware_present_eq_true_iff B f).1 h).1 hmagic

/-- C7 at a flash whose magic is wrong and whose declared length, 8192, is plausible. -/
theorem C7_magic_mismatch_rejected_witness :
    readU32 (headerFlash 0x525a5255 8192) sampleBoard.FLASH_FWHEADER_CODELEN = 8192 ∧
    firmware_present sampleBoard (headerFlash 0x525a5255 8192) = false :=
  ⟨by decide, C7_magic_mismatch_rejected sampleBoard (headerFlash 0x525a5255 8192) (by decide)⟩

/-- C8: with a correct magic marker, a declared code length strictly below 8192 or
strictly above `FLASH_APP_LEN` makes `firmware_present` return false. -/
theorem C8_implausible_length_rejected (B : Board) (f : Flash)
    (_hmagic : readU32 f B.FLASH_FWHEADER_MAGIC = FIRMWARE_MAGIC)
    (hlen : readU32 f B.FLASH_FWHEADER_CODELEN < 8192 ∨
      B.FLASH_APP_LEN < readU32 f B.FLASH_FWHEADER_CODELEN) :
    firmware_present B f = false := by
  cases h : firmware_present B f with
  | false => rfl
  | true =>
    have := (firmware_present_eq_true_iff B f).1 h
    omega

/-- C8 at declared length 4096 (too small) and at `FLASH_APP_LEN + 1` (too large). -/
theorem C8_implausible_length_rejected_witness :
    firmware_present sampleBoard (headerFlash FIRMWARE_MAGIC 4096) = false ∧
    firmware_present sampleBoard (headerFlash FIRMWARE_MAGIC 0xEFC01) = false :=
  ⟨C8_implausible_length_rejected sampleBoard (headerFlash FIRMWARE_MAGIC 4096)
      (by decide) (Or.inl (by decide)),
   C8_implausible_length_rejected sampleBoard (headerFlash FIRMWARE_MAGIC 0xEFC01)
      (by decide) (Or.inr (by decide))⟩

/-- C9: `firmware_present` returns true exactly when the magic field equals
`FIRMWARE_MAGIC` and the declared code length lies in `[8192, FLASH_APP_LEN]`; with a
correct magic and a non-empty interval, both boundary lengths are accepted. -/
theorem C9_firmware_present_iff (B : Board) (f : Flash) :
    (firmware_present B f = true ↔
      readU32 f B.FLASH_FWHEADER_MAGIC = FIRMWARE_MAGIC ∧
      8192 ≤ readU32 f B.FLASH_FWHEADER_CODELEN ∧
      readU32 f B.FLASH_FWHEADER_CODELEN ≤ B.FLASH_APP_LEN) ∧
    (readU32 f B.FLASH_FWHEADER_MAGIC = FIRMWARE_MAGIC → 8192 ≤ B.FLASH_APP_LEN →
      (readU32 f B.FLASH_FWHEADER_CODELEN = 8192 ∨
        readU32 f B.FLASH_FWHEADER_CODELEN = B.FLASH_APP_LEN) →
      firmware_present B f = true) := by
  refine ⟨firmware_present_eq_true_iff B f, fun hm hB hl => ?_⟩
  rw [firmware_present_eq_true_iff]
  refine ⟨hm, ?_, ?_⟩ <;> omega

/-- C9 at the two boundary lengths 8192 and `FLASH_APP_LEN` of `sampleBoard`. -/
theorem C9_firmware_present_iff_witness :
    firmware_present sampleBoard (headerFlash FIRMWARE_MAGIC 8192) = true ∧
    firmware_present sampleBoard (headerFlash FIRMWARE_MAGIC 0xEFC00) = true :=
  ⟨(C9_firmware_present_iff sampleBoard (headerFlash FIRMWARE_MAGIC 8192)).2
      (by decide) (by decide) (Or.inl (by decide)),
   (C9_firmware_present_iff sampleBoard (headerFlash FIRMWARE_MAGIC 0xEFC00)).2
      (by decide) (by decide) (Or.inr (by decide))⟩

/-! ## Recovery and the signed path (C10, C1) -/

/-- C10: when `firmware_present` is false, `main` enters `bootloader_loop` and ends
in `usbLoop` (Recovery); the run calls neither `signatures_ok`, nor
`show_unofficial_warning`, nor `show_halt`, nor `load_app`. -/
theorem C10_no_image_recovery (B : Board) (p : PowerOn)
    (hfw : firmware_present B p.flash = false) :
    (main B p).exit = Exit.recovery ∧
    calls Event.is_bootloader_loop (main B p).trace = true ∧
    calls Event.is_signatures_ok (main B p).trace = false ∧
    calls Event.is_show_unofficial_warning (main B p).trace = false ∧
    calls Event.is_show_halt (main B p).trace = false ∧
    calls Event.is_load_app (main B p).trace = false ∧
    calls Event.is_jump_to_firmware (main B p).trace = false := by
  rw [main_recovery B p (by simp [hfw])]
  simp [calls_append, calls_cons, calls_nil, bootPrologue, bootloader_loop, hfw,
    Event.is_bootloader_loop, Event.is_signatures_ok, Event.is_show_unofficial_warning,
    Event.is_show_halt, Event.is_load_app, Event.is_jump_to_firmware]

/-- C10 at a flash with a wrong magic (Scenario A), buttons unpressed, an oracle
that would answer `SIG_OK`. -/
theorem C10_no_image_recovery_witness :
    (main sampleBoard ⟨headerFlash 0 8192, 36, 7, sampleBoard.SIG_OK, [], []⟩).exit
      = Exit.recovery ∧
    calls Event.is_signatures_ok
      (main sampleBoard ⟨headerFlash 0 8192, 36, 7, sampleBoard.SIG_OK, [], []⟩).trace = false :=
  have h := C10_no_image_recovery sampleBoard
    ⟨headerFlash 0 8192, 36, 7, sampleBoard.SIG_OK, [], []⟩ (by decide)
  ⟨h.1, h.2.2.1⟩

/-- C1 as stated fails: with both buttons pressed at power-on (port state 0), an image
that is present and an oracle answering `SIG_OK`, `main` goes to Recovery and never
enters `load_app`. -/
theorem C1_counterexample_both_pressed :
    firmware_present sampleBoard (samplePowerOn 0 sampleBoard.SIG_OK []).flash = true ∧
    (samplePowerOn 0 sampleBoard.SIG_OK []).sig_ret = sampleBoard.SIG_OK ∧
    (main sampleBoard (samplePowerOn 0 sampleBoard.SIG_OK [])).exit = Exit.recovery ∧
    calls Event.is_load_app (main sampleBoard (samplePowerOn 0 sampleBoard.SIG_OK [])).trace
      = false := by
  decide

/-- C1 amended: when `firmware_present` holds, at least one button is unpressed at
power-on and the oracle returns `SIG_OK`, `main` reaches `load_app` (once) and
`jump_to_firmware`, and never invokes `show_unofficial_warning`, whatever the
button samples are. -/
theorem C1_signed_transfers (B : Board) (p : PowerOn)
    (hfw : firmware_present B p.flash = true) (hun : unpressed B p.gpio = true)
    (hsig : p.sig_ret = B.SIG_OK) :
    (main B p).exit = Exit.transfer p.sig_ret ∧
    callCount Event.is_load_app (main B p).trace = 1 ∧
    calls Event.is_jump_to_firmware (main B p).trace = true ∧
    calls Event.is_show_unofficial_warning (main B p).trace = false ∧
    calls Event.is_buttonUpdate (main B p).trace = false := by
  rw [main_signed B p (by simp [hfw, hun]) hsig.symm]
  simp [calls_append, calls_cons, calls_nil, callCount_append, callCount_cons, callCount_nil,
    bootPrologue, oraclePhase, load_app, Event.is_load_app, Event.is_jump_to_firmware,
    Event.is_show_unofficial_warning, Event.is_buttonUpdate]

/-- C1 amended, at a present image with only the reject button pressed and a
signed verdict (Scenario C). -/
theorem C1_signed_transfers_witness :
    (main sampleBoard (samplePowerOn 4 sampleBoard.SIG_OK [⟨false, true⟩])).exit
      = Exit.transfer sampleBoard.SIG_OK ∧
    calls Event.is_show_unofficial_warning
      (main sampleBoard (samplePowerOn 4 sampleBoard.SIG_OK [⟨false, true⟩])).trace = false :=
  have h := C1_signed_transfers sampleBoard
    (samplePowerOn 4 sampleBoard.SIG_OK [⟨false, true⟩]) (by decide) (by decide) (by decide)
  ⟨h.1, h.2.2.2.1⟩

/-! ## The ceremony (C2 to C6) -/

/-- C2: in every run of `main` in which the oracle `signatures_ok` is called and
returns a value other than `SIG_OK`, `show_unofficial_warning` is invoked, and every
call of `load_app` or `jump_to_firmware` in the trace has the entry of
`show_unofficial_warning` somewhere before it. -/
theorem C2_warning_before_transfer (B : Board) (p : PowerOn)
    (hfail : calls (Event.is_failed_verdict B) (main B p).trace = true) :
    calls Event.is_show_unofficial_warning (main B p).trace = true ∧
    ∀ (pre : List Event) (e : Event) (post : List Event),
      (main B p).trace = pre ++ e :: post →
      (e.is_load_app = true ∨ e.is_jump_to_firmware = true) →
      calls Event.is_show_unofficial_warning pre = true := by
  obtain ⟨h, hs⟩ := (failed_verdict_iff B p).1 hfail
  obtain ⟨rest, hrest⟩ := failed_run_prefix B p h hs
  constructor
  · rw [hrest]
    simp [calls_append, calls_cons, Event.is_show_unofficial_warning]
  · intro pre e post hdec he
    rw [hrest] at hdec
    refine before_of_prefix (fun x => x.is_load_app || x.is_jump_to_firmware)
      Event.is_show_unofficial_warning (Event.show_unofficial_warning p.sig_hash)
      rfl rfl _ rest pre e post hdec ?_ ?_
    · intro x hx
      simp only [bootPrologue, oraclePhase, List.cons_append, List.nil_append, List.mem_cons,
        List.mem_singleton] at hx
      rcases hx with rfl | rfl | rfl | rfl | rfl | rfl | rfl | rfl | hx
      · rfl
      · rfl
      · rfl
      · rfl
      · rfl
      · rfl
      · rfl
      · rfl
      · rcases hx with rfl | hx
        · rfl
        · cases hx
    · rcases he with he | he <;> simp [he]

/-- C2 on a run with verdict 0, accept then accept: the ceremony is entered. -/
theorem C2_warning_before_transfer_witness :
    calls Event.is_show_unofficial_warning
      (main sampleBoard (samplePowerOn 36 0 [⟨true, false⟩, ⟨true, false⟩])).trace = true ∧
    calls Event.is_load_app
      (main sampleBoard (samplePowerOn 36 0 [⟨true, false⟩, ⟨true, false⟩])).trace = true :=
  ⟨(C2_warning_before_transfer sampleBoard
      (samplePowerOn 36 0 [⟨true, false⟩, ⟨true, false⟩]) (by decide)).1, by decide⟩

/-- C3: when the authenticity check failed, `main` reaches `load_app` if and only if
both polling loops were left on an accept: the samples are idle ones, then a
sample with `YesUp` and without `NoUp`, then idle ones, then again a sample with
`YesUp` and without `NoUp`.  Reaching `load_app` is the same as ending in Transfer. -/
theorem C3_transfer_iff_two_accepts (B : Board) (p : PowerOn)
    (hfail : calls (Event.is_failed_verdict B) (main B p).trace = true) :
    (calls Event.is_load_app (main B p).trace = true ↔
      ∃ pre b1 mid b2 post, p.samples = pre ++ b1 :: (mid ++ b2 :: post) ∧
        (∀ b ∈ pre, b.YesUp = false ∧ b.NoUp = false) ∧ b1.YesUp = true ∧ b1.NoUp = false ∧
        (∀ b ∈ mid, b.YesUp = false ∧ b.NoUp = false) ∧ b2.YesUp = true ∧ b2.NoUp = false) ∧
    ((main B p).exit = Exit.transfer p.sig_ret ↔
      calls Event.is_load_app (main B p).trace = true) := by
  obtain ⟨h, hs⟩ := (failed_verdict_iff B p).1 hfail
  have hq : Event.is_load_app (Event.delay 100000) = false := rfl
  have hb : ∀ b, Event.is_load_app (Event.buttonUpdate b) = false := fun _ => rfl
  have hacc : ∀ pre b1 mid b2 post, p.samples = pre ++ b1 :: (mid ++ b2 :: post) →
      (∀ b ∈ pre, b.YesUp = false ∧ b.NoUp = false) → b1.YesUp = true → b1.NoUp = false →
      (∀ b ∈ mid, b.YesUp = false ∧ b.NoUp = false) → b2.YesUp = true → b2.NoUp = false →
      calls Event.is_load_app (main B p).trace = true ∧
        (main B p).exit = Exit.transfer p.sig_ret := by
    intro pre b1 mid b2 post hl hpre hy hn hmid hy2 hn2
    rw [run_accept B p h hs pre b1 mid b2 post hl hpre hy hn hmid hy2 hn2]
    simp [calls_append, calls_cons, calls_nil, load_app, Event.is_load_app]
  rcases failed_run_cases B p h hs with ⟨_, hm⟩ | ⟨_, _, _, _, _, _, hm⟩ |
    ⟨_, _, _, _, _, _, _, _, hm⟩ | ⟨_, _, _, _, _, _, _, _, _, _, _, hm⟩ |
    ⟨pre, b1, mid, b2, post, hl, hpre, hy, hn, hmid, hy2, hn2, _⟩
  · have hc : calls Event.is_load_app (main B p).trace = false := by
      rw [hm]
      simp [calls_append, calls_cons, calls_nil, calls_polls _ _ hq hb, bootPrologue,
        oraclePhase, warningScreen, Event.is_load_app]
    have he : (main B p).exit = Exit.polling 1 := by rw [hm]
    constructor
    · constructor
      · intro hx; rw [hc] at hx; cases hx
      · rintro ⟨pre, b1, mid, b2, post, hl, hpre, hy, hn, hmid, hy2, hn2⟩
        exact (hacc pre b1 mid b2 post hl hpre hy hn hmid hy2 hn2).1
    · rw [hc, he]; simp
  · have hc : calls Event.is_load_app (main B p).trace = false := by
      rw [hm]
      simp [calls_append, calls_cons, calls_nil, calls_polls _ _ hq hb, bootPrologue,
        oraclePhase, warningScreen, show_halt, Event.is_load_app]
    have he : (main B p).exit = Exit.halt := by rw [hm]
    constructor
    · constructor
      · intro hx; rw [hc] at hx; cases hx
      · rintro ⟨pre, b1, mid, b2, post, hl, hpre, hy, hn, hmid, hy2, hn2⟩
        exact (hacc pre b1 mid b2 post hl hpre hy hn hmid hy2 hn2).1
    · rw [hc, he]; simp
  · have hc : calls Event.is_load_app (main B p).trace = false := by
      rw [hm]
      simp [calls_append, calls_cons, calls_nil, calls_polls _ _ hq hb, bootPrologue,
        oraclePhase, warningScreen, layoutFirmwareHash, Event.is_load_app]
    have he : (main B p).exit = Exit.polling 2 := by rw [hm]
    constructor
    · constructor
      · intro hx; rw [hc] at hx; cases hx
      · rintro ⟨pre, b1, mid, b2, post, hl, hpre, hy, hn, hmid, hy2, hn2⟩
        exact (hacc pre b1 mid b2 post hl hpre hy hn hmid hy2 hn2).1
    · rw [hc, he]; simp
  · have hc : calls Event.is_load_app (main B p).trace = false := by
      rw [hm]
      simp [calls_append, calls_cons, calls_nil, calls_polls _ _ hq hb, bootPrologue,
        oraclePhase, warningScreen, layoutFirmwareHash, show_halt, Event.is_load_app]
    have he : (main B p).exit = Exit.halt := by rw [hm]
    constructor
    · constructor
      · intro hx; rw [hc] at hx; cases hx
      · rintro ⟨pre, b1, mid, b2, post, hl, hpre, hy, hn, hmid, hy2, hn2⟩
        exact (hacc pre b1 mid b2 post hl hpre hy hn hmid hy2 hn2).1
    · rw [hc, he]; simp
  · have hboth := hacc pre b1 mid b2 post hl hpre hy hn hmid hy2 hn2
    exact ⟨⟨fun _ => ⟨pre, b1, mid, b2, post, hl, hpre, hy, hn, hmid, hy2, hn2⟩,
      fun _ => hboth.1⟩, ⟨fun _ => hboth.1, fun _ => hboth.2⟩⟩

/-- C3 on Scenario D: verdict 0, an idle sample, accept, an idle sample, accept. -/
theorem C3_transfer_iff_two_accepts_witness :
    (main sampleBoard (samplePowerOn 36 0
      [⟨false, false⟩, ⟨true, false⟩, ⟨false, false⟩, ⟨true, false⟩])).exit
      = Exit.transfer 0 :=
  ((C3_transfer_iff_two_accepts sampleBoard (samplePowerOn 36 0
      [⟨false, false⟩, ⟨true, false⟩, ⟨false, false⟩, ⟨true, false⟩]) (by decide)).2).2
    (by decide)

/-- C4: when the authenticity check failed, the run ends in Halt if and only if a
reject (a sample with `NoUp`) ended the first stage, or an accept ended the first
stage and a reject ended the second.  A run that halts ends with `show_halt`, its
"Unofficial firmware / aborted." dialog and `shutdown`, and never calls `load_app`
or `jump_to_firmware`; after a first-stage reject the fingerprint screen is never
shown and no further sample is polled. -/
theorem C4_halt_iff_reject (B : Board) (p : PowerOn)
    (hfail : calls (Event.is_failed_verdict B) (main B p).trace = true) :
    ((main B p).exit = Exit.halt ↔
      (∃ pre b1 rest, p.samples = pre ++ b1 :: rest ∧
        (∀ b ∈ pre, b.YesUp = false ∧ b.NoUp = false) ∧ b1.NoUp = true) ∨
      (∃ pre b1 mid b2 post, p.samples = pre ++ b1 :: (mid ++ b2 :: post) ∧
        (∀ b ∈ pre, b.YesUp = false ∧ b.NoUp = false) ∧ b1.YesUp = true ∧ b1.NoUp = false ∧
        (∀ b ∈ mid, b.YesUp = false ∧ b.NoUp = false) ∧ b2.NoUp = true)) ∧
    ((main B p).exit = Exit.halt →
      (∃ t, (main B p).trace = t ++
        [Event.show_halt,
         Event.layoutDialog Icon.error none none none (some "Unofficial firmware")
           (some "aborted.") none (some "Unplug your TREZOR") (some "contact our support.")
           none,
         Event.shutdown]) ∧
      calls Event.is_load_app (main B p).trace = false ∧
      calls Event.is_jump_to_firmware (main B p).trace = false) ∧
    (∀ pre b1 rest, p.samples = pre ++ b1 :: rest →
      (∀ b ∈ pre, b.YesUp = false ∧ b.NoUp = false) → b1.NoUp = true →
      calls Event.is_layoutFirmwareHash (main B p).trace = false ∧
      callCount Event.is_buttonUpdate (main B p).trace = pre.length + 1) := by
  obtain ⟨h, hs⟩ := (failed_verdict_iff B p).1 hfail
  have hq : Event.is_load_app (Event.delay 100000) = false := rfl
  have hb : ∀ b, Event.is_load_app (Event.buttonUpdate b) = false := fun _ => rfl
  have hq2 : Event.is_jump_to_firmware (Event.delay 100000) = false := rfl
  have hb2 : ∀ b, Event.is_jump_to_firmware (Event.buttonUpdate b) = false := fun _ => rfl
  have hq3 : Event.is_layoutFirmwareHash (Event.delay 100000) = false := rfl
  have hb3 : ∀ b, Event.is_layoutFirmwareHash (Event.buttonUpdate b) = false := fun _ => rfl
  refine ⟨⟨?_, ?_⟩, ?_, ?_⟩
  · intro hx
    rcases failed_run_cases B p h hs with ⟨_, hm⟩ | ⟨pre, b1, rest, hl, hpre, h1, _⟩ |
      ⟨_, _, _, _, _, _, _, _, hm⟩ |
      ⟨pre, b1, mid, b2, post, hl, hpre, hy, hn, hmid, h2, _⟩ |
      ⟨_, _, _, _, _, _, _, _, _, _, _, _, hm⟩
    · rw [hm] at hx; cases hx
    · exact Or.inl ⟨pre, b1, rest, hl, hpre, h1⟩
    · rw [hm] at hx; cases hx
    · exact Or.inr ⟨pre, b1, mid, b2, post, hl, hpre, hy, hn, hmid, h2⟩
    · rw [hm] at hx; cases hx
  · rintro (⟨pre, b1, rest, hl, hpre, h1⟩ |
      ⟨pre, b1, mid, b2, post, hl, hpre, hy, hn, hmid, h2⟩)
    · rw [run_reject1 B p h hs pre b1 rest hl hpre h1]
    · rw [run_reject2 B p h hs pre b1 mid b2 post hl hpre hy hn hmid h2]
  · intro hx
    rcases failed_run_cases B p h hs with ⟨_, hm⟩ | ⟨pre, b1, rest, hl, hpre, h1, hm⟩ |
      ⟨_, _, _, _, _, _, _, _, hm⟩ |
      ⟨pre, b1, mid, b2, post, hl, hpre, hy, hn, hmid, h2, hm⟩ |
      ⟨_, _, _, _, _, _, _, _, _, _, _, _, hm⟩
    · rw [hm] at hx; cases hx
    · rw [hm]
      refine ⟨⟨bootPrologue p ++ oraclePhase p ++
        (warningScreen p.sig_hash ++ polls (pre ++ [b1])), by simp [show_halt]⟩, ?_, ?_⟩
      · simp [calls_append, calls_cons, calls_nil, calls_polls _ _ hq hb, bootPrologue,
          oraclePhase, warningScreen, show_halt, Event.is_load_app]
      · simp [calls_append, calls_cons, calls_nil, calls_polls _ _ hq2 hb2, bootPrologue,
          oraclePhase, warningScreen, show_halt, Event.is_jump_to_firmware]
    · rw [hm] at hx; cases hx
    · rw [hm]
      refine ⟨⟨bootPrologue p ++ oraclePhase p ++
        (warningScreen p.sig_hash ++ polls (pre ++ [b1]) ++ layoutFirmwareHash p.sig_hash
          ++ polls (mid ++ [b2])), by simp [show_halt]⟩, ?_, ?_⟩
      · simp [calls_append, calls_cons, calls_nil, calls_polls _ _ hq hb, bootPrologue,
          oraclePhase, warningScreen, layoutFirmwareHash, show_halt, Event.is_load_app]
      · simp [calls_append, calls_cons, calls_nil, calls_polls _ _ hq2 hb2, bootPrologue,
          oraclePhase, warningScreen, layoutFirmwareHash, show_halt,
          Event.is_jump_to_firmware]
    · rw [hm] at hx; cases hx
  · intro pre b1 rest hl hpre h1
    rw [run_reject1 B p h hs pre b1 rest hl hpre h1]
    constructor
    · simp [calls_append, calls_cons, calls_nil, calls_polls _ _ hq3 hb3, bootPrologue,
        oraclePhase, warningScreen, show_halt, Event.is_layoutFirmwareHash]
    · simp [callCount_append, callCount_cons, callCount_nil, callCount_polls, bootPrologue,
        oraclePhase, warningScreen, show_halt, Event.is_buttonUpdate]

/-- C4 on Scenario E (reject at the first prompt) : the run halts. -/
theorem C4_halt_iff_reject_witness :
    (main sampleBoard (samplePowerOn 36 0 [⟨false, false⟩, ⟨false, true⟩, ⟨true, false⟩])).exit
      = Exit.halt ∧
    calls Event.is_load_app
      (main sampleBoard (samplePowerOn 36 0
        [⟨false, false⟩, ⟨false, true⟩, ⟨true, false⟩])).trace = false :=
  have h := C4_halt_iff_reject sampleBoard
    (samplePowerOn 36 0 [⟨false, false⟩, ⟨false, true⟩, ⟨true, false⟩]) (by decide)
  have hx := h.1.2 (Or.inl ⟨[⟨false, false⟩], ⟨false, true⟩, [⟨true, false⟩], rfl,
    by decide, rfl⟩)
  ⟨hx, (h.2.1 hx).2.1⟩

/-- C5 as stated fails: a sample with both `YesUp` and `NoUp` set does not keep the
stage polling.  As the first sample it halts the run after one poll, although two
clean accepts follow; right after a first-stage accept it halts the run after two
polls, although a clean accept follows. -/
theorem C5_counterexample_both_signals :
    (main sampleBoard (samplePowerOn 36 0
      [⟨true, true⟩, ⟨true, false⟩, ⟨true, false⟩])).exit = Exit.halt ∧
    callCount Event.is_buttonUpdate (main sampleBoard (samplePowerOn 36 0
      [⟨true, true⟩, ⟨true, false⟩, ⟨true, false⟩])).trace = 1 ∧
    calls Event.is_show_halt (main sampleBoard (samplePowerOn 36 0
      [⟨true, true⟩, ⟨true, false⟩, ⟨true, false⟩])).trace = true ∧
    (main sampleBoard (samplePowerOn 36 0
      [⟨true, false⟩, ⟨true, true⟩, ⟨true, false⟩])).exit = Exit.halt ∧
    callCount Event.is_buttonUpdate (main sampleBoard (samplePowerOn 36 0
      [⟨true, false⟩, ⟨true, true⟩, ⟨true, false⟩])).trace = 2 := by
  decide

/-- C5 amended: in either polling stage a sample with both `YesUp` and `NoUp` set ends
the stage's polling and counts as a reject: `show_halt` is invoked and the run halts
without polling any later sample, in the first stage before the fingerprint screen
and in the second stage after it.  Polling continues only on samples in which
neither signal is set: the run is still polling in the first stage exactly when
every sample so far is idle, and still polling in the second stage exactly when
the samples are idle ones, one accept, and idle ones since. -/
theorem C5_both_signals_reject (B : Board) (p : PowerOn)
    (hfail : calls (Event.is_failed_verdict B) (main B p).trace = true) :
    (∀ pre b rest, p.samples = pre ++ b :: rest →
      (∀ x ∈ pre, x.YesUp = false ∧ x.NoUp = false) → b.YesUp = true → b.NoUp = true →
      (main B p).exit = Exit.halt ∧
      calls Event.is_show_halt (main B p).trace = true ∧
      calls Event.is_load_app (main B p).trace = false ∧
      callCount Event.is_buttonUpdate (main B p).trace = pre.length + 1 ∧
      calls Event.is_layoutFirmwareHash (main B p).trace = false ∧
      (main B p).trace =
        bootPrologue p ++ oraclePhase p ++ warningScreen p.sig_hash ++
        polls pre ++ [Event.delay 100000, Event.buttonUpdate b] ++ show_halt.trace) ∧
    (∀ pre b1 mid b post, p.samples = pre ++ b1 :: (mid ++ b :: post) →
      (∀ x ∈ pre, x.YesUp = false ∧ x.NoUp = false) → b1.YesUp = true → b1.NoUp = false →
      (∀ x ∈ mid, x.YesUp = false ∧ x.NoUp = false) → b.YesUp = true → b.NoUp = true →
      (main B p).exit = Exit.halt ∧
      calls Event.is_show_halt (main B p).trace = true ∧
      calls Event.is_load_app (main B p).trace = false ∧
      callCount Event.is_buttonUpdate (main B p).trace = pre.length + 1 + (mid.length + 1) ∧
      callCount Event.is_layoutFirmwareHash (main B p).trace = 1 ∧
      (main B p).trace =
        bootPrologue p ++ oraclePhase p ++ warningScreen p.sig_hash ++
        polls pre ++ [Event.delay 100000, Event.buttonUpdate b1] ++
        layoutFirmwareHash p.sig_hash ++
        polls mid ++ [Event.delay 100000, Event.buttonUpdate b] ++ show_halt.trace) ∧
    ((main B p).exit = Exit.polling 1 ↔
      ∀ x ∈ p.samples, x.YesUp = false ∧ x.NoUp = false) ∧
    ((main B p).exit = Exit.polling 2 ↔
      ∃ pre b1 mid, p.samples = pre ++ b1 :: mid ∧
        (∀ x ∈ pre, x.YesUp = false ∧ x.NoUp = false) ∧ b1.YesUp = true ∧ b1.NoUp = false ∧
        (∀ x ∈ mid, x.YesUp = false ∧ x.NoUp = false)) := by
  obtain ⟨h, hs⟩ := (failed_verdict_iff B p).1 hfail
  have hq : Event.is_load_app (Event.delay 100000) = false := rfl
  have hb : ∀ b, Event.is_load_app (Event.buttonUpdate b) = false := fun _ => rfl
  have hq3 : Event.is_layoutFirmwareHash (Event.delay 100000) = false := rfl
  have hb3 : ∀ b, Event.is_layoutFirmwareHash (Event.buttonUpdate b) = false := fun _ => rfl
  have hsplit : ∀ (l : List Button) (x : Button),
      polls (l ++ [x]) = polls l ++ [Event.delay 100000, Event.buttonUpdate x] := by
    intro l x
    simp [polls]
  have hz : ∀ l : List Button, callCount Event.is_layoutFirmwareHash (polls l) = 0 := by
    intro l
    induction l with
    | nil => rfl
    | cons x l ih =>
      have hx : polls (x :: l) = [Event.delay 100000, Event.buttonUpdate x] ++ polls l := by
        simp [polls]
      rw [hx, callCount_append, ih]
      rfl
  refine ⟨?_, ?_, ⟨?_, ?_⟩, ⟨?_, ?_⟩⟩
  · intro pre b rest hl hpre _ hn
    rw [run_reject1 B p h hs pre b rest hl hpre hn]
    refine ⟨rfl, ?_, ?_, ?_, ?_, ?_⟩
    · simp [calls_append, calls_cons, show_halt, Event.is_show_halt]
    · simp [calls_append, calls_cons, calls_nil, calls_polls _ _ hq hb, bootPrologue,
        oraclePhase, warningScreen, show_halt, Event.is_load_app]
    · simp [callCount_append, callCount_cons, callCount_nil, callCount_polls, bootPrologue,
        oraclePhase, warningScreen, show_halt, Event.is_buttonUpdate]
    · simp [calls_append, calls_cons, calls_nil, calls_polls _ _ hq3 hb3, bootPrologue,
        oraclePhase, warningScreen, show_halt, Event.is_layoutFirmwareHash]
    · simp only [hsplit, List.append_assoc]
  · intro pre b1 mid b post hl hpre hy1 hn1 hmid _ hn
    rw [run_reject2 B p h hs pre b1 mid b post hl hpre hy1 hn1 hmid hn]
    refine ⟨rfl, ?_, ?_, ?_, ?_, ?_⟩
    · simp [calls_append, calls_cons, show_halt, Event.is_show_halt]
    · simp [calls_append, calls_cons, calls_nil, calls_polls _ _ hq hb, bootPrologue,
        oraclePhase, warningScreen, layoutFirmwareHash, show_halt, Event.is_load_app]
    · simp [callCount_append, callCount_cons, callCount_nil, callCount_polls, bootPrologue,
        oraclePhase, warningScreen, layoutFirmwareHash, show_halt, Event.is_buttonUpdate]
    · simp [callCount_append, callCount_cons, callCount_nil, hz, bootPrologue, oraclePhase,
        warningScreen, layoutFirmwareHash, show_halt, Event.is_layoutFirmwareHash]
    · simp only [hsplit, List.append_assoc]
  · intro hx
    rcases failed_run_cases B p h hs with ⟨hall, _⟩ | ⟨_, _, _, _, _, _, hm⟩ |
      ⟨_, _, _, _, _, _, _, _, hm⟩ | ⟨_, _, _, _, _, _, _, _, _, _, _, hm⟩ |
      ⟨_, _, _, _, _, _, _, _, _, _, _, _, hm⟩
    · exact hall
    · rw [hm] at hx; cases hx
    · rw [hm] at hx; simp at hx
    · rw [hm] at hx; cases hx
    · rw [hm] at hx; cases hx
  · intro hall
    rw [run_polling1 B p h hs hall]
  · intro hx
    rcases failed_run_cases B p h hs with ⟨_, hm⟩ | ⟨_, _, _, _, _, _, hm⟩ |
      ⟨pre, b1, mid, hl, hpre, hy, hn, hmid, _⟩ | ⟨_, _, _, _, _, _, _, _, _, _, _, hm⟩ |
      ⟨_, _, _, _, _, _, _, _, _, _, _, _, hm⟩
    · rw [hm] at hx; simp at hx
    · rw [hm] at hx; cases hx
    · exact ⟨pre, b1, mid, hl, hpre, hy, hn, hmid⟩
    · rw [hm] at hx; cases hx
    · rw [hm] at hx; cases hx
  · rintro ⟨pre, b1, mid, hl, hpre, hy, hn, hmid⟩
    rw [run_polling2 B p h hs pre b1 mid hl hpre hy hn hmid]

/-- C5 amended, on an idle sample followed by a sample with both signals, and on a
single accept sample, after which the first stage is no longer polling. -/
theorem C5_both_signals_reject_witness :
    (main sampleBoard (samplePowerOn 36 0
      [⟨false, false⟩, ⟨true, true⟩, ⟨true, false⟩])).exit = Exit.halt ∧
    callCount Event.is_buttonUpdate (main sampleBoard (samplePowerOn 36 0
      [⟨false, false⟩, ⟨true, true⟩, ⟨true, false⟩])).trace = 2 ∧
    (main sampleBoard (samplePowerOn 36 0 [⟨true, false⟩])).exit = Exit.polling 2 :=
  have h := (C5_both_signals_reject sampleBoard
    (samplePowerOn 36 0 [⟨false, false⟩, ⟨true, true⟩, ⟨true, false⟩]) (by decide)).1
      [⟨false, false⟩] ⟨true, true⟩ [⟨true, false⟩] rfl (by decide) rfl rfl
  have h2 := (C5_both_signals_reject sampleBoard
    (samplePowerOn 36 0 [⟨true, false⟩]) (by decide)).2.2.2.2
      ⟨[], ⟨true, false⟩, [], rfl, by decide, rfl, rfl, by decide⟩
  ⟨h.1, h.2.2.2.1, h2⟩

/-- C6: the ceremony has no timeout and no implicit accept.  When the authenticity
check failed and all `n` samples at hand are idle, the run is still polling in the
first stage after `n` polls, with no halt, no fingerprint screen and no transfer;
when an accept ended the first stage and the samples since are all idle, the run
is still polling in the second stage, every sample polled, with no halt and no
transfer.  Whenever a run is past the first stage some sample carried a signal,
and whenever it is past the second stage a later sample carried one as well. -/
theorem C6_no_timeout (B : Board) (p : PowerOn)
    (hfail : calls (Event.is_failed_verdict B) (main B p).trace = true) :
    ((∀ b ∈ p.samples, b.YesUp = false ∧ b.NoUp = false) →
      (main B p).exit = Exit.polling 1 ∧
      callCount Event.is_buttonUpdate (main B p).trace = p.samples.length ∧
      calls Event.is_show_halt (main B p).trace = false ∧
      calls Event.is_layoutFirmwareHash (main B p).trace = false ∧
      calls Event.is_load_app (main B p).trace = false) ∧
    (∀ pre b1 mid, p.samples = pre ++ b1 :: mid →
      (∀ b ∈ pre, b.YesUp = false ∧ b.NoUp = false) → b1.YesUp = true → b1.NoUp = false →
      (∀ b ∈ mid, b.YesUp = false ∧ b.NoUp = false) →
      (main B p).exit = Exit.polling 2 ∧
      callCount Event.is_buttonUpdate (main B p).trace = pre.length + 1 + mid.length ∧
      calls Event.is_show_halt (main B p).trace = false ∧
      calls Event.is_load_app (main B p).trace = false) ∧
    ((main B p).exit ≠ Exit.polling 1 →
      ∃ pre b rest, p.samples = pre ++ b :: rest ∧
        (∀ x ∈ pre, x.YesUp = false ∧ x.NoUp = false) ∧ (b.YesUp = true ∨ b.NoUp = true)) ∧
    (calls Event.is_layoutFirmwareHash (main B p).trace = true →
      (main B p).exit ≠ Exit.polling 2 →
      ∃ pre b1 mid b2 post, p.samples = pre ++ b1 :: (mid ++ b2 :: post) ∧
        (∀ x ∈ pre, x.YesUp = false ∧ x.NoUp = false) ∧ b1.YesUp = true ∧ b1.NoUp = false ∧
        (∀ x ∈ mid, x.YesUp = false ∧ x.NoUp = false) ∧
        (b2.YesUp = true ∨ b2.NoUp = true)) := by
  obtain ⟨h, hs⟩ := (failed_verdict_iff B p).1 hfail
  have hq : Event.is_load_app (Event.delay 100000) = false := rfl
  have hb : ∀ b, Event.is_load_app (Event.buttonUpdate b) = false := fun _ => rfl
  have hq2 : Event.is_show_halt (Event.delay 100000) = false := rfl
  have hb2 : ∀ b, Event.is_show_halt (Event.buttonUpdate b) = false := fun _ => rfl
  have hq3 : Event.is_layoutFirmwareHash (Event.delay 100000) = false := rfl
  have hb3 : ∀ b, Event.is_layoutFirmwareHash (Event.buttonUpdate b) = false := fun _ => rfl
  refine ⟨?_, ?_, ?_, ?_⟩
  · intro hall
    rw [run_polling1 B p h hs hall]
    refine ⟨rfl, ?_, ?_, ?_, ?_⟩
    · simp [callCount_append, callCount_cons, callCount_nil, callCount_polls, bootPrologue,
        oraclePhase, warningScreen, Event.is_buttonUpdate]
    · simp [calls_append, calls_cons, calls_nil, calls_polls _ _ hq2 hb2, bootPrologue,
        oraclePhase, warningScreen, Event.is_show_halt]
    · simp [calls_append, calls_cons, calls_nil, calls_polls _ _ hq3 hb3, bootPrologue,
        oraclePhase, warningScreen, Event.is_layoutFirmwareHash]
    · simp [calls_append, calls_cons, calls_nil, calls_polls _ _ hq hb, bootPrologue,
        oraclePhase, warningScreen, Event.is_load_app]
  · intro pre b1 mid hl hpre hy hn hmid
    rw [run_polling2 B p h hs pre b1 mid hl hpre hy hn hmid]
    refine ⟨rfl, ?_, ?_, ?_⟩
    · simp [callCount_append, callCount_cons, callCount_nil, callCount_polls, bootPrologue,
        oraclePhase, warningScreen, layoutFirmwareHash, Event.is_buttonUpdate]
    · simp [calls_append, calls_cons, calls_nil, calls_polls _ _ hq2 hb2, bootPrologue,
        oraclePhase, warningScreen, layoutFirmwareHash, Event.is_show_halt]
    · simp [calls_append, calls_cons, calls_nil, calls_polls _ _ hq hb, bootPrologue,
        oraclePhase, warningScreen, layoutFirmwareHash, Event.is_load_app]
  · intro hx
    rcases failed_run_cases B p h hs with ⟨_, hm⟩ | ⟨pre, b1, rest, hl, hpre, h1, _⟩ |
      ⟨pre, b1, mid, hl, hpre, hy, _, _, _⟩ |
      ⟨pre, b1, mid, b2, post, hl, hpre, hy, _, _, _, _⟩ |
      ⟨pre, b1, mid, b2, post, hl, hpre, hy, _, _, _, _, _⟩
    · rw [hm] at hx; exact absurd rfl hx
    · exact ⟨pre, b1, rest, hl, hpre, Or.inr h1⟩
    · exact ⟨pre, b1, mid, hl, hpre, Or.inl hy⟩
    · exact ⟨pre, b1, _, hl, hpre, Or.inl hy⟩
    · exact ⟨pre, b1, _, hl, hpre, Or.inl hy⟩
  · intro hshown hx
    rcases failed_run_cases B p h hs with ⟨_, hm⟩ | ⟨pre, b1, rest, hl, hpre, h1, hm⟩ |
      ⟨_, _, _, _, _, _, _, _, hm⟩ |
      ⟨pre, b1, mid, b2, post, hl, hpre, hy, hn, hmid, h2, _⟩ |
      ⟨pre, b1, mid, b2, post, hl, hpre, hy, hn, hmid, hy2, _, _⟩
    · rw [hm] at hshown
      simp [calls_append, calls_cons, calls_nil, calls_polls _ _ hq3 hb3, bootPrologue,
        oraclePhase, warningScreen, Event.is_layoutFirmwareHash] at hshown
    · rw [hm] at hshown
      simp [calls_append, calls_cons, calls_nil, calls_polls _ _ hq3 hb3, bootPrologue,
        oraclePhase, warningScreen, show_halt, Event.is_layoutFirmwareHash] at hshown
    · rw [hm] at hx; exact absurd rfl hx
    · exact ⟨pre, b1, mid, b2, post, hl, hpre, hy, hn, hmid, Or.inr h2⟩
    · exact ⟨pre, b1, mid, b2, post, hl, hpre, hy, hn, hmid, Or.inl hy2⟩

/-- C6 on three idle samples: after three polls the run is still in the first stage. -/
theorem C6_no_timeout_witness :
    (main sampleBoard (samplePowerOn 36 0
      [⟨false, false⟩, ⟨false, false⟩, ⟨false, false⟩])).exit = Exit.polling 1 ∧
    callCount Event.is_buttonUpdate (main sampleBoard (samplePowerOn 36 0
      [⟨false, false⟩, ⟨false, false⟩, ⟨false, false⟩])).trace = 3 :=
  have h := (C6_no_timeout sampleBoard
    (samplePowerOn 36 0 [⟨false, false⟩, ⟨false, false⟩, ⟨false, false⟩]) (by decide)).1
      (by decide)
  ⟨h.1, h.2.1⟩

/-! ## Further facts on traces -/

theorem callCount_polls_zero (q : Event → Bool) (l : List Button)
    (hd : q (Event.delay 100000) = false) (hb : ∀ b, q (Event.buttonUpdate b) = false) :
    callCount q (polls l) = 0 := by
  induction l with
  | nil => rfl
  | cons b l ih =>
    simp only [callCount, polls, List.flatMap_cons] at ih ⊢
    rw [List.countP_append, ih]
    simp [List.countP_cons, hd, hb]

theorem filterMap_polls (l : List Button) : (polls l).filterMap decisionRank = [] := by
  induction l with
  | nil => rfl
  | cons b l ih =>
    simp only [polls, List.flatMap_cons] at ih ⊢
    rw [List.filterMap_append, ih]
    simp [decisionRank]

theorem mem_polls (e : Event) (l : List Button) (h : e ∈ polls l) :
    e = Event.delay 100000 ∨ ∃ b, e = Event.buttonUpdate b := by
  induction l with
  | nil => simp [polls] at h
  | cons b l ih =>
    simp only [polls, List.flatMap_cons, List.mem_append, List.mem_cons] at h ih
    rcases h with (h | h | h) | h
    · exact Or.inl h
    · exact Or.inr ⟨b, h⟩
    · cases h
    · exact ih h

/-- Every run of `main` has one of three forms: Recovery, the signed path, or a
run with a failed authenticity check. -/
theorem main_cases (B : Board) (p : PowerOn) :
    ((firmware_present B p.flash && unpressed B p.gpio) = false ∧
      main B p = ⟨bootPrologue p ++ (bootloader_loop B p.flash).trace, Exit.recovery⟩) ∨
    ((firmware_present B p.flash && unpressed B p.gpio) = true ∧ B.SIG_OK = p.sig_ret ∧
      main B p = ⟨bootPrologue p ++ oraclePhase p ++ (load_app B p.sig_ret).trace,
        Exit.transfer p.sig_ret⟩) ∨
    ((firmware_present B p.flash && unpressed B p.gpio) = true ∧ B.SIG_OK ≠ p.sig_ret) := by
  cases h : (firmware_present B p.flash && unpressed B p.gpio) with
  | false => exact Or.inl ⟨rfl, main_recovery B p h⟩
  | true =>
    by_cases hs : B.SIG_OK = p.sig_ret
    · exact Or.inr (Or.inl ⟨rfl, hs, main_signed B p h hs⟩)
    · exact Or.inr (Or.inr ⟨rfl, hs⟩)

/-! ## One pass through the decision states (C15) -/

/-- C15: the boot decision is acyclic per attempt.  In every run of `main` the oracle
is called at most once, the warning stage and the fingerprint stage are each
entered at most once, at most one of `load_app`, `show_halt`, `bootloader_loop`
is entered, and the decision states opened along the trace have strictly
increasing ranks, so no state is entered after a later one. -/
theorem C15_acyclic (B : Board) (p : PowerOn) :
    callCount Event.is_signatures_ok (main B p).trace ≤ 1 ∧
    callCount Event.is_show_unofficial_warning (main B p).trace ≤ 1 ∧
    callCount Event.is_layoutFirmwareHash (main B p).trace ≤ 1 ∧
    callCount Event.is_load_app (main B p).trace + callCount Event.is_show_halt (main B p).trace
      + callCount Event.is_bootloader_loop (main B p).trace ≤ 1 ∧
    List.Pairwise (fun a b => a < b) ((main B p).trace.filterMap decisionRank) := by
  have p1 := callCount_polls_zero Event.is_signatures_ok
  have p2 := callCount_polls_zero Event.is_show_unofficial_warning
  have p3 := callCount_polls_zero Event.is_layoutFirmwareHash
  have p4 := callCount_polls_zero Event.is_load_app
  have p5 := callCount_polls_zero Event.is_show_halt
  have p6 := callCount_polls_zero Event.is_bootloader_loop
  rcases main_cases B p with ⟨_, hm⟩ | ⟨_, _, hm⟩ | ⟨h, hs⟩
  · rw [hm]
    cases hf : firmware_present B p.flash <;>
      simp [callCount_append, callCount_cons, callCount_nil, List.filterMap_append,
        List.filterMap_cons, bootPrologue, bootloader_loop, hf, decisionRank,
        Event.is_signatures_ok, Event.is_show_unofficial_warning, Event.is_layoutFirmwareHash,
        Event.is_load_app, Event.is_show_halt, Event.is_bootloader_loop]
  · rw [hm]
    simp [callCount_append, callCount_cons, callCount_nil, List.filterMap_append,
      List.filterMap_cons, bootPrologue, oraclePhase, load_app, decisionRank,
      Event.is_signatures_ok, Event.is_show_unofficial_warning, Event.is_layoutFirmwareHash,
      Event.is_load_app, Event.is_show_halt, Event.is_bootloader_loop]
  · rcases failed_run_cases B p h hs with ⟨_, hm⟩ | ⟨_, _, _, _, _, _, hm⟩ |
      ⟨_, _, _, _, _, _, _, _, hm⟩ | ⟨_, _, _, _, _, _, _, _, _, _, _, hm⟩ |
      ⟨_, _, _, _, _, _, _, _, _, _, _, _, hm⟩ <;>
    · rw [hm]
      simp [callCount_append, callCount_cons, callCount_nil, List.filterMap_append,
        List.filterMap_cons, filterMap_polls, p1, p2, p3, p4, p5, p6, bootPrologue,
        oraclePhase, warningScreen, layoutFirmwareHash, show_halt, load_app, decisionRank,
        Event.is_signatures_ok, Event.is_show_unofficial_warning,
        Event.is_layoutFirmwareHash, Event.is_load_app, Event.is_show_halt,
        Event.is_bootloader_loop]

/-! ## The header check byte by byte (C16) -/

theorem readU32_eq_magic_iff (f : Flash) (a : Nat) :
    readU32 f a = FIRMWARE_MAGIC ↔
      readByte f a = 0x54 ∧ readByte f (a + 1) = 0x52 ∧ readByte f (a + 2) = 0x5A ∧
      readByte f (a + 3) = 0x52 := by
  have h0 := readByte_lt f a
  have h1 := readByte_lt f (a + 1)
  have h2 := readByte_lt f (a + 2)
  have h3 := readByte_lt f (a + 3)
  unfold readU32 FIRMWARE_MAGIC
  constructor
  · intro h
    omega
  · rintro ⟨e0, e1, e2, e3⟩
    omega

theorem readU32_congr (f g : Flash) (a : Nat)
    (h : ∀ i, i < 4 → readByte g (a + i) = readByte f (a + i)) :
    readU32 g a = readU32 f a := by
  have e0 := h 0 (by decide)
  have e1 := h 1 (by decide)
  have e2 := h 2 (by decide)
  have e3 := h 3 (by decide)
  simp only [Nat.add_zero] at e0
  unfold readU32
  rw [e0, e1, e2, e3]

/-- C16: at the byte level `firmware_present` is true exactly when the four bytes at
`FLASH_FWHEADER_MAGIC` are 0x54 0x52 0x5A 0x52 ("TRZR" in ascending address order) and
the four bytes `b0..b3` at `FLASH_FWHEADER_CODELEN` satisfy
`8192 ≤ b0 + 2^8 b1 + 2^16 b2 + 2^24 b3 ≤ FLASH_APP_LEN` as unsigned numbers.  With
`FLASH_APP_LEN` below `2^31`, a length whose top bit is set is rejected; two flash
contents that agree on these eight bytes get the same result. -/
theorem C16_byte_level (B : Board) (f : Flash) :
    (firmware_present B f = true ↔
      readByte f B.FLASH_FWHEADER_MAGIC = 0x54 ∧
      readByte f (B.FLASH_FWHEADER_MAGIC + 1) = 0x52 ∧
      readByte f (B.FLASH_FWHEADER_MAGIC + 2) = 0x5A ∧
      readByte f (B.FLASH_FWHEADER_MAGIC + 3) = 0x52 ∧
      8192 ≤ readByte f B.FLASH_FWHEADER_CODELEN
        + 2 ^ 8 * readByte f (B.FLASH_FWHEADER_CODELEN + 1)
        + 2 ^ 16 * readByte f (B.FLASH_FWHEADER_CODELEN + 2)
        + 2 ^ 24 * readByte f (B.FLASH_FWHEADER_CODELEN + 3) ∧
      readByte f B.FLASH_FWHEADER_CODELEN
        + 2 ^ 8 * readByte f (B.FLASH_FWHEADER_CODELEN + 1)
        + 2 ^ 16 * readByte f (B.FLASH_FWHEADER_CODELEN + 2)
        + 2 ^ 24 * readByte f (B.FLASH_FWHEADER_CODELEN + 3) ≤ B.FLASH_APP_LEN) ∧
    (B.FLASH_APP_LEN < 2 ^ 31 → 128 ≤ readByte f (B.FLASH_FWHEADER_CODELEN + 3) →
      firmware_present B f = false) ∧
    (∀ g : Flash,
      (∀ i, i < 4 → readByte g (B.FLASH_FWHEADER_MAGIC + i)
        = readByte f (B.FLASH_FWHEADER_MAGIC + i)) →
      (∀ i, i < 4 → readByte g (B.FLASH_FWHEADER_CODELEN + i)
        = readByte f (B.FLASH_FWHEADER_CODELEN + i)) →
      firmware_present B g = firmware_present B f) := by
  refine ⟨?_, ?_, ?_⟩
  · rw [firmware_present_eq_true_iff, readU32_eq_magic_iff]
    unfold readU32
    constructor
    · rintro ⟨⟨e0, e1, e2, e3⟩, hlo, hhi⟩
      exact ⟨e0, e1, e2, e3, hlo, hhi⟩
    · rintro ⟨e0, e1, e2, e3, hlo, hhi⟩
      exact ⟨⟨e0, e1, e2, e3⟩, hlo, hhi⟩
  · intro hcap htop
    cases h : firmware_present B f with
    | false => rfl
    | true =>
      have hx := ((firmware_present_eq_true_iff B f).1 h).2.2
      unfold readU32 at hx
      omega
  · intro g hmagic hlen
    have em := readU32_congr f g B.FLASH_FWHEADER_MAGIC hmagic
    have el := readU32_congr f g B.FLASH_FWHEADER_CODELEN hlen
    have hf := firmware_present_eq_true_iff B f
    have hg := firmware_present_eq_true_iff B g
    rw [em, el] at hg
    cases h1 : firmware_present B f with
    | false =>
      cases h2 : firmware_present B g with
      | false => rfl
      | true => rw [← h1]; exact (hf.2 (hg.1 h2)).symm
    | true => exact hg.2 (hf.1 h1)

/-- C16 at a header with the right magic and the declared length 0x80002000, whose top
bit is set: rejected. -/
theorem C16_byte_level_witness :
    firmware_present sampleBoard (headerFlash FIRMWARE_MAGIC 0x80002000) = false :=
  (C16_byte_level sampleBoard (headerFlash FIRMWARE_MAGIC 0x80002000)).2.1
    (by decide) (by decide)

/-! ## Both buttons held at power-on (C17) -/

/-- C17: when the masks `BTN_PIN_YES` and `BTN_PIN_NO` are non-empty and neither has a
bit set in the port state sampled at power-on (both buttons pressed), `main` enters
`bootloader_loop` and calls neither `signatures_ok`, nor `show_unofficial_warning`,
nor `load_app`, for every flash content and every oracle result.  Conversely a run
that enters `load_app` has at least one button unpressed at power-on. -/
theorem C17_both_pressed_recovery (B : Board) (p : PowerOn) :
    (B.BTN_PIN_YES ≠ 0 → B.BTN_PIN_NO ≠ 0 →
      (p.gpio % 2 ^ 16) &&& B.BTN_PIN_YES = 0 → (p.gpio % 2 ^ 16) &&& B.BTN_PIN_NO = 0 →
      (main B p).exit = Exit.recovery ∧
      calls Event.is_bootloader_loop (main B p).trace = true ∧
      calls Event.is_signatures_ok (main B p).trace = false ∧
      calls Event.is_show_unofficial_warning (main B p).trace = false ∧
      calls Event.is_load_app (main B p).trace = false ∧
      calls Event.is_jump_to_firmware (main B p).trace = false) ∧
    (calls Event.is_load_app (main B p).trace = true →
      (p.gpio % 2 ^ 16) &&& B.BTN_PIN_YES = B.BTN_PIN_YES ∨
      (p.gpio % 2 ^ 16) &&& B.BTN_PIN_NO = B.BTN_PIN_NO) := by
  have hrec : (firmware_present B p.flash && unpressed B p.gpio) = false →
      (main B p).exit = Exit.recovery ∧
      calls Event.is_bootloader_loop (main B p).trace = true ∧
      calls Event.is_signatures_ok (main B p).trace = false ∧
      calls Event.is_show_unofficial_warning (main B p).trace = false ∧
      calls Event.is_load_app (main B p).trace = false ∧
      calls Event.is_jump_to_firmware (main B p).trace = false := by
    intro h
    rw [main_recovery B p h]
    cases hf : firmware_present B p.flash <;>
      simp [calls_append, calls_cons, calls_nil, bootPrologue, bootloader_loop, hf,
        Event.is_bootloader_loop, Event.is_signatures_ok, Event.is_show_unofficial_warning,
        Event.is_load_app, Event.is_jump_to_firmware]
  constructor
  · intro hy0 hn0 hy hn
    apply hrec
    have hu : unpressed B p.gpio = false := by
      simp only [unpressed, hy, hn, Bool.or_eq_false_iff, beq_eq_false_iff_ne, ne_eq]
      exact ⟨fun e => hy0 e.symm, fun e => hn0 e.symm⟩
    simp [hu]
  · intro hcall
    cases hu : unpressed B p.gpio with
    | false =>
      have := (hrec (by simp [hu])).2.2.2.2.1
      rw [this] at hcall
      cases hcall
    | true =>
      simpa [unpressed] using hu

/-- C17 on `sampleBoard` with port state 0, a present image and a signed verdict. -/
theorem C17_both_pressed_recovery_witness :
    firmware_present sampleBoard (samplePowerOn 0 sampleBoard.SIG_OK []).flash = true ∧
    (main sampleBoard (samplePowerOn 0 sampleBoard.SIG_OK [])).exit = Exit.recovery ∧
    calls Event.is_signatures_ok
      (main sampleBoard (samplePowerOn 0 sampleBoard.SIG_OK [])).trace = false :=
  have h := (C17_both_pressed_recovery sampleBoard (samplePowerOn 0 sampleBoard.SIG_OK [])).1
    (by decide) (by decide) (by decide) (by decide)
  ⟨by decide, h.1, h.2.2.1⟩

/-! ## The transfer of control (C11, C12) -/

/-- A run that reaches `jump_to_firmware` is the signed path or the path through a
ceremony left on two accepts. -/
theorem transfer_cases (B : Board) (p : PowerOn)
    (hjump : calls Event.is_jump_to_firmware (main B p).trace = true) :
    (B.SIG_OK = p.sig_ret ∧
      main B p = ⟨bootPrologue p ++ oraclePhase p ++ (load_app B p.sig_ret).trace,
        Exit.transfer p.sig_ret⟩) ∨
    (B.SIG_OK ≠ p.sig_ret ∧
      ∃ pre b1 mid b2 post, p.samples = pre ++ b1 :: (mid ++ b2 :: post) ∧
        (∀ b ∈ pre, b.YesUp = false ∧ b.NoUp = false) ∧ b1.YesUp = true ∧ b1.NoUp = false ∧
        (∀ b ∈ mid, b.YesUp = false ∧ b.NoUp = false) ∧ b2.YesUp = true ∧ b2.NoUp = false ∧
        main B p = ⟨bootPrologue p ++ oraclePhase p ++
          (warningScreen p.sig_hash ++ polls (pre ++ [b1]) ++ layoutFirmwareHash p.sig_hash
            ++ polls (mid ++ [b2])) ++ [Event.timer_init] ++ (load_app B p.sig_ret).trace,
          Exit.transfer p.sig_ret⟩) := by
  have hq : Event.is_jump_to_firmware (Event.delay 100000) = false := rfl
  have hb : ∀ b, Event.is_jump_to_firmware (Event.buttonUpdate b) = false := fun _ => rfl
  rcases main_cases B p with ⟨_, hm⟩ | ⟨_, hs, hm⟩ | ⟨h, hs⟩
  · exfalso
    rw [hm] at hjump
    cases hf : firmware_present B p.flash <;>
      simp [calls_append, calls_cons, calls_nil, bootPrologue, bootloader_loop, hf,
        Event.is_jump_to_firmware] at hjump
  · exact Or.inl ⟨hs, hm⟩
  · right
    refine ⟨hs, ?_⟩
    rcases failed_run_cases B p h hs with ⟨_, hm⟩ | ⟨_, _, _, _, _, _, hm⟩ |
      ⟨_, _, _, _, _, _, _, _, hm⟩ | ⟨_, _, _, _, _, _, _, _, _, _, _, hm⟩ |
      ⟨pre, b1, mid, b2, post, hl, hpre, hy, hn, hmid, hy2, hn2, hm⟩
    · exfalso
      rw [hm] at hjump
      simp [calls_append, calls_cons, calls_nil, calls_polls _ _ hq hb, bootPrologue,
        oraclePhase, warningScreen, Event.is_jump_to_firmware] at hjump
    · exfalso
      rw [hm] at hjump
      simp [calls_append, calls_cons, calls_nil, calls_polls _ _ hq hb, bootPrologue,
        oraclePhase, warningScreen, show_halt, Event.is_jump_to_firmware] at hjump
    · exfalso
      rw [hm] at hjump
      simp [calls_append, calls_cons, calls_nil, calls_polls _ _ hq hb, bootPrologue,
        oraclePhase, warningScreen, layoutFirmwareHash, Event.is_jump_to_firmware] at hjump
    · exfalso
      rw [hm] at hjump
      simp [calls_append, calls_cons, calls_nil, calls_polls _ _ hq hb, bootPrologue,
        oraclePhase, warningScreen, layoutFirmwareHash, show_halt,
        Event.is_jump_to_firmware] at hjump
    · exact ⟨pre, b1, mid, b2, post, hl, hpre, hy, hn, hmid, hy2, hn2, hm⟩

theorem u32Byte_zero (i : Nat) : u32Byte 0 i = 0 := by
  simp [u32Byte]

/-- C11: on every run of `main` that reaches `jump_to_firmware`, by the signed path or
through the ceremony, `memset_reg(_ram_start, _ram_end, 0)` is called exactly once
and is the event right before the jump, which is the last event; whatever the
memory held before, every byte of `[_ram_start, _ram_end)` is zero after that call. -/
theorem C11_ram_zeroed_before_jump (B : Board) (p : PowerOn)
    (hjump : calls Event.is_jump_to_firmware (main B p).trace = true) :
    (∃ pre, (main B p).trace = pre ++
        [Event.memset_reg B.ram_start B.ram_end 0,
         Event.jump_to_firmware B.FLASH_APP_START p.sig_ret] ∧
      calls Event.is_memset_reg pre = false ∧ calls Event.is_jump_to_firmware pre = false) ∧
    callCount Event.is_memset_reg (main B p).trace = 1 ∧
    ∀ (ram : Ram) (a : Nat), B.ram_start ≤ a → a < B.ram_end →
      memset_reg B.ram_start B.ram_end 0 ram a = 0 := by
  have hq : Event.is_jump_to_firmware (Event.delay 100000) = false := rfl
  have hb : ∀ b, Event.is_jump_to_firmware (Event.buttonUpdate b) = false := fun _ => rfl
  have hq2 : Event.is_memset_reg (Event.delay 100000) = false := rfl
  have hb2 : ∀ b, Event.is_memset_reg (Event.buttonUpdate b) = false := fun _ => rfl
  have hz := callCount_polls_zero Event.is_memset_reg
  have hram : ∀ (ram : Ram) (a : Nat), B.ram_start ≤ a → a < B.ram_end →
      memset_reg B.ram_start B.ram_end 0 ram a = 0 := by
    intro ram a h1 h2
    simp [memset_reg, h1, h2, u32Byte_zero]
  rcases transfer_cases B p hjump with ⟨_, hm⟩ |
    ⟨_, pre, b1, mid, b2, post, _, _, _, _, _, _, _, hm⟩
  · rw [hm]
    refine ⟨⟨bootPrologue p ++ oraclePhase p ++ [Event.load_app p.sig_ret],
      by simp [load_app], ?_, ?_⟩, ?_, hram⟩
    · simp [calls_append, calls_cons, calls_nil, bootPrologue, oraclePhase,
        Event.is_memset_reg]
    · simp [calls_append, calls_cons, calls_nil, bootPrologue, oraclePhase,
        Event.is_jump_to_firmware]
    · simp [callCount_append, callCount_cons, callCount_nil, bootPrologue, oraclePhase,
        load_app, Event.is_memset_reg]
  · rw [hm]
    refine ⟨⟨bootPrologue p ++ oraclePhase p ++
        (warningScreen p.sig_hash ++ polls (pre ++ [b1]) ++ layoutFirmwareHash p.sig_hash
          ++ polls (mid ++ [b2])) ++ [Event.timer_init] ++ [Event.load_app p.sig_ret],
      by simp [load_app], ?_, ?_⟩, ?_, hram⟩
    · simp [calls_append, calls_cons, calls_nil, calls_polls _ _ hq2 hb2, bootPrologue,
        oraclePhase, warningScreen, layoutFirmwareHash, Event.is_memset_reg]
    · simp [calls_append, calls_cons, calls_nil, calls_polls _ _ hq hb, bootPrologue,
        oraclePhase, warningScreen, layoutFirmwareHash, Event.is_jump_to_firmware]
    · simp [callCount_append, callCount_cons, callCount_nil, hz, bootPrologue, oraclePhase,
        warningScreen, layoutFirmwareHash, load_app, Event.is_memset_reg]

/-- C11 on Scenario D: the run through two accepts zeroes the memory once. -/
theorem C11_ram_zeroed_before_jump_witness :
    callCount Event.is_memset_reg
      (main sampleBoard (samplePowerOn 36 0 [⟨true, false⟩, ⟨true, false⟩])).trace = 1 ∧
    memset_reg sampleBoard.ram_start sampleBoard.ram_end 0 (fun _ => 255) 0x20000010 = 0 :=
  have h := C11_ram_zeroed_before_jump sampleBoard
    (samplePowerOn 36 0 [⟨true, false⟩, ⟨true, false⟩]) (by decide)
  ⟨h.2.1, h.2.2 (fun _ => 255) 0x20000010 (by decide) (by decide)⟩

theorem load_app_not_mem_polls (x : Int) (l : List Button) : Event.load_app x ∉ polls l := by
  intro h
  rcases mem_polls _ l h with h | ⟨b, h⟩ <;> cases h

theorem jump_not_mem_polls (v : Nat) (x : Int) (l : List Button) :
    Event.jump_to_firmware v x ∉ polls l := by
  intro h
  rcases mem_polls _ l h with h | ⟨b, h⟩ <;> cases h

/-- The value given to `load_app` and to `jump_to_firmware` is the value returned by
the oracle call recorded in the trace. -/
theorem flag_is_oracle_result (B : Board) (p : PowerOn) (flag : Int)
    (hmem : Event.load_app flag ∈ (main B p).trace ∨
      ∃ v, Event.jump_to_firmware v flag ∈ (main B p).trace) :
    flag = p.sig_ret ∧ Event.signatures_ok flag p.sig_hash ∈ (main B p).trace := by
  rcases main_cases B p with ⟨_, hm⟩ | ⟨_, _, hm⟩ | ⟨h, hs⟩
  · exfalso
    rw [hm] at hmem
    cases hf : firmware_present B p.flash <;>
      simp [bootPrologue, bootloader_loop, hf] at hmem
  · rw [hm] at hmem ⊢
    have hflag : flag = p.sig_ret := by
      rcases hmem with hmem | ⟨v, hmem⟩
      · simpa [bootPrologue, oraclePhase, load_app] using hmem
      · have := hmem
        simp only [bootPrologue, oraclePhase, load_app, List.mem_append, List.mem_cons,
          List.mem_singleton, Event.jump_to_firmware.injEq] at this
        simp at this
        exact this.2
    subst hflag
    exact ⟨rfl, by simp [oraclePhase]⟩
  · rcases failed_run_cases B p h hs with ⟨_, hm⟩ | ⟨_, _, _, _, _, _, hm⟩ |
      ⟨_, _, _, _, _, _, _, _, hm⟩ | ⟨_, _, _, _, _, _, _, _, _, _, _, hm⟩ |
      ⟨_, _, _, _, _, _, _, _, _, _, _, _, hm⟩
    · exfalso
      rw [hm] at hmem
      simp [bootPrologue, oraclePhase, warningScreen, load_app_not_mem_polls,
        jump_not_mem_polls] at hmem
    · exfalso
      rw [hm] at hmem
      simp [bootPrologue, oraclePhase, warningScreen, show_halt, load_app_not_mem_polls,
        jump_not_mem_polls] at hmem
    · exfalso
      rw [hm] at hmem
      simp [bootPrologue, oraclePhase, warningScreen, layoutFirmwareHash,
        load_app_not_mem_polls, jump_not_mem_polls] at hmem
    · exfalso
      rw [hm] at hmem
      simp [bootPrologue, oraclePhase, warningScreen, layoutFirmwareHash, show_halt,
        load_app_not_mem_polls, jump_not_mem_polls] at hmem
    · rw [hm] at hmem ⊢
      have hflag : flag = p.sig_ret := by
        rcases hmem with hmem | ⟨v, hmem⟩
        · simpa [bootPrologue, oraclePhase, warningScreen, layoutFirmwareHash, load_app,
            load_app_not_mem_polls, jump_not_mem_polls] using hmem
        · have := hmem
          simp [bootPrologue, oraclePhase, warningScreen, layoutFirmwareHash, load_app,
            load_app_not_mem_polls, jump_not_mem_polls] at this
          exact this.2
      subst hflag
      exact ⟨rfl, by simp [oraclePhase]⟩

/-- C12: the flag handed to the application is the oracle's result, unchanged.  Every
value given to `load_app` or `jump_to_firmware` is the value returned by the
`signatures_ok` call of the run, so it is `SIG_OK` exactly when the verdict was
Signed; a run that reaches Transfer through the ceremony after a failed
authenticity check passes the failing result, which is not `SIG_OK`. -/
theorem C12_flag_is_verdict (B : Board) (p : PowerOn) :
    (∀ flag, Event.load_app flag ∈ (main B p).trace →
      flag = p.sig_ret ∧ Event.signatures_ok flag p.sig_hash ∈ (main B p).trace) ∧
    (∀ v flag, Event.jump_to_firmware v flag ∈ (main B p).trace →
      flag = p.sig_ret ∧ Event.signatures_ok flag p.sig_hash ∈ (main B p).trace ∧
      (flag = B.SIG_OK ↔ calls (Event.is_failed_verdict B) (main B p).trace = false)) ∧
    (calls (Event.is_failed_verdict B) (main B p).trace = true →
      ∀ flag, (main B p).exit = Exit.transfer flag →
        flag ≠ B.SIG_OK ∧ flag = p.sig_ret ∧
        Event.load_app flag ∈ (main B p).trace ∧
        Event.jump_to_firmware B.FLASH_APP_START flag ∈ (main B p).trace) := by
  refine ⟨?_, ?_, ?_⟩
  · intro flag hmem
    exact flag_is_oracle_result B p flag (Or.inl hmem)
  · intro v flag hmem
    obtain ⟨hflag, hsig⟩ := flag_is_oracle_result B p flag (Or.inr ⟨v, hmem⟩)
    refine ⟨hflag, hsig, ?_⟩
    have hiff := failed_verdict_iff B p
    rcases main_cases B p with ⟨_, hm⟩ | ⟨h, hs, _⟩ | ⟨h, hs⟩
    · exfalso
      rw [hm] at hmem
      cases hf : firmware_present B p.flash <;>
        simp [bootPrologue, bootloader_loop, hf] at hmem
    · constructor
      · intro _
        cases hc : calls (Event.is_failed_verdict B) (main B p).trace with
        | false => rfl
        | true => exact absurd hs (hiff.1 hc).2
      · intro _
        rw [hflag, hs]
    · constructor
      · intro he
        exact absurd (he.symm.trans hflag) hs
      · intro hc
        rw [hiff.2 ⟨h, hs⟩] at hc
        cases hc
  · intro hfail flag hexit
    obtain ⟨h, hs⟩ := (failed_verdict_iff B p).1 hfail
    rcases failed_run_cases B p h hs with ⟨_, hm⟩ | ⟨_, _, _, _, _, _, hm⟩ |
      ⟨_, _, _, _, _, _, _, _, hm⟩ | ⟨_, _, _, _, _, _, _, _, _, _, _, hm⟩ |
      ⟨_, _, _, _, _, _, _, _, _, _, _, _, hm⟩
    · rw [hm] at hexit; cases hexit
    · rw [hm] at hexit; cases hexit
    · rw [hm] at hexit; cases hexit
    · rw [hm] at hexit; cases hexit
    · rw [hm] at hexit ⊢
      have hflag : flag = p.sig_ret := by
        simp only [Exit.transfer.injEq] at hexit
        exact hexit.symm
      subst hflag
      exact ⟨fun e => hs e.symm, rfl, by simp [load_app], by simp [load_app]⟩

/-- C12 on Scenario D: verdict 0, accept then accept; the flag passed is 0, not
`SIG_OK`. -/
theorem C12_flag_is_verdict_witness :
    (0 : Int) ≠ sampleBoard.SIG_OK ∧
    Event.jump_to_firmware sampleBoard.FLASH_APP_START 0 ∈
      (main sampleBoard (samplePowerOn 36 0 [⟨true, false⟩, ⟨true, false⟩])).trace :=
  have h := (C12_flag_is_verdict sampleBoard
    (samplePowerOn 36 0 [⟨true, false⟩, ⟨true, false⟩])).2.2 (by decide) 0 (by decide)
  ⟨h.1, h.2.2.2⟩

/-! ## The fingerprint screen (C13) -/

theorem data2hex_append (a b : List Nat) : data2hex (a ++ b) = data2hex a ++ data2hex b := by
  simp only [data2hex, List.flatMap_append]
  rfl

theorem data2hex_length (l : List Nat) : (data2hex l).length = 2 * l.length := by
  induction l with
  | nil => rfl
  | cons b l ih =>
    have h := data2hex_append [b] l
    simp only [List.singleton_append] at h
    rw [h, String.length_append, ih]
    simp only [data2hex, List.flatMap_cons, List.flatMap_nil, List.append_nil, String.length,
      List.length_cons, List.length_nil]
    omega

/-- The eight bytes of row `i`, taken by index. -/
theorem row_bytes (hash : List Nat) (i : Nat) (h : i * 8 + 8 ≤ hash.length) :
    (hash.drop (i * 8)).take 8 = (List.range 8).map fun k => hash.getD (i * 8 + k) 0 := by
  apply List.ext_getElem
  · simp
    omega
  · intro n h1 h2
    simp at h1 h2
    simp only [List.getElem_take, List.getElem_drop, List.getElem_map, List.getElem_range,
      List.getD_eq_getElem?_getD]
    have hb : i * 8 + n < hash.length := by omega
    rw [List.getElem?_eq_getElem hb]
    rfl

theorem rows_cover (hash : List Nat) (hlen : hash.length = 32) :
    hashRow hash 0 ++ hashRow hash 1 ++ hashRow hash 2 ++ hashRow hash 3 = hash := by
  have r0 := row_bytes hash 0 (by omega)
  have r1 := row_bytes hash 1 (by omega)
  have r2 := row_bytes hash 2 (by omega)
  have r3 := row_bytes hash 3 (by omega)
  simp only [hashRow, ← r0, ← r1, ← r2, ← r3]
  have h3 : (hash.drop (3 * 8)).take 8 = hash.drop 24 :=
    List.take_of_length_le (by simp [hlen])
  rw [h3]
  have e1 : hash.drop 24 = (hash.drop 16).drop 8 := by simp
  have e2 : hash.drop (2 * 8) = (hash.drop 8).drop 8 := by simp
  have e3 : hash.drop (1 * 8) = hash.drop 8 := by simp
  have e4 : hash.drop (0 * 8) = hash := by simp
  rw [e3, e4, List.append_assoc, List.append_assoc, e1]
  have e5 : hash.drop (2 * 8) = hash.drop 16 := by simp
  rw [e5, List.take_append_drop]
  have e6 : hash.drop 16 = (hash.drop 8).drop 8 := by simp
  rw [e6, List.take_append_drop, List.take_append_drop]

/-- C13: for every 32-byte fingerprint `layoutFirmwareHash` shows one dialog with
the captions "Abort" and "Continue" and four text rows; row `i` is the hexadecimal
rendering of bytes `8i .. 8i+7`, 16 characters long, and the four rows joined in
order are the hexadecimal rendering of all 32 bytes. -/
theorem C13_fingerprint_rows (hash : List Nat) (hlen : hash.length = 32) :
    layoutFirmwareHash hash =
      [Event.layoutFirmwareHash hash,
       Event.layoutDialog Icon.question (some "Abort") (some "Continue")
         (some "Compare fingerprints")
         (some (data2hex (hashRow hash 0))) (some (data2hex (hashRow hash 1)))
         (some (data2hex (hashRow hash 2))) (some (data2hex (hashRow hash 3))) none none] ∧
    (∀ i, i < 4 → (data2hex (hashRow hash i)).length = 16) ∧
    data2hex (hashRow hash 0) ++ data2hex (hashRow hash 1) ++ data2hex (hashRow hash 2)
      ++ data2hex (hashRow hash 3) = data2hex hash := by
  refine ⟨?_, ?_, ?_⟩
  · have r0 := row_bytes hash 0 (by omega)
    have r1 := row_bytes hash 1 (by omega)
    have r2 := row_bytes hash 2 (by omega)
    have r3 := row_bytes hash 3 (by omega)
    simp only [layoutFirmwareHash, hashRow, r0, r1, r2, r3]
  · intro i _
    rw [data2hex_length]
    simp [hashRow]
  · rw [← data2hex_append, ← data2hex_append, ← data2hex_append, rows_cover hash hlen]

/-- C13 on the fingerprint 0, 1, ..., 31: the first row reads "0001020304050607". -/
theorem C13_fingerprint_rows_witness :
    data2hex (hashRow (List.range 32) 0) = "0001020304050607" ∧
    (data2hex (hashRow (List.range 32) 0)).length = 16 :=
  ⟨by decide, (C13_fingerprint_rows (List.range 32) (by decide)).2.1 0 (by decide)⟩

/-! ## Order inside the ceremony (C14, C18) -/

theorem polls_append (a b : List Button) : polls (a ++ b) = polls a ++ polls b := by
  simp [polls]

theorem polls_singleton (b : Button) :
    polls [b] = [Event.delay 100000, Event.buttonUpdate b] := by
  simp [polls]

/-- C14: in every run that reaches Transfer after a failed authenticity check, the
fingerprint dialog is rendered once, from the hash written by `signatures_ok`,
after the poll that gave the first-stage accept and before the polls of the
second stage, the last of which gives the second accept; in every run whose first
stage ends in a reject the fingerprint dialog is never rendered. -/
theorem C14_fingerprint_between_accepts (B : Board) (p : PowerOn)
    (hfail : calls (Event.is_failed_verdict B) (main B p).trace = true) :
    (calls Event.is_jump_to_firmware (main B p).trace = true →
      ∃ pre b1 mid b2 post, p.samples = pre ++ b1 :: (mid ++ b2 :: post) ∧
        (∀ b ∈ pre, b.YesUp = false ∧ b.NoUp = false) ∧ b1.YesUp = true ∧ b1.NoUp = false ∧
        (∀ b ∈ mid, b.YesUp = false ∧ b.NoUp = false) ∧ b2.YesUp = true ∧ b2.NoUp = false ∧
        (main B p).trace =
          bootPrologue p ++
          [Event.oledClear, Event.oledDrawBitmap 40 0 Bitmap.logo64_empty, Event.oledRefresh,
           Event.signatures_ok p.sig_ret p.sig_hash] ++
          warningScreen p.sig_hash ++
          polls pre ++ [Event.delay 100000, Event.buttonUpdate b1] ++
          layoutFirmwareHash p.sig_hash ++
          polls mid ++ [Event.delay 100000, Event.buttonUpdate b2] ++
          [Event.timer_init] ++ (load_app B p.sig_ret).trace ∧
        callCount Event.is_layoutFirmwareHash (main B p).trace = 1) ∧
    (∀ pre b1 rest, p.samples = pre ++ b1 :: rest →
      (∀ b ∈ pre, b.YesUp = false ∧ b.NoUp = false) → b1.NoUp = true →
      calls Event.is_layoutFirmwareHash (main B p).trace = false) := by
  obtain ⟨h, hs⟩ := (failed_verdict_iff B p).1 hfail
  have hq : Event.is_layoutFirmwareHash (Event.delay 100000) = false := rfl
  have hb : ∀ b, Event.is_layoutFirmwareHash (Event.buttonUpdate b) = false := fun _ => rfl
  have hz := callCount_polls_zero Event.is_layoutFirmwareHash
  constructor
  · intro hjump
    rcases transfer_cases B p hjump with ⟨hs2, _⟩ |
      ⟨_, pre, b1, mid, b2, post, hl, hpre, hy, hn, hmid, hy2, hn2, hm⟩
    · exact absurd hs2 hs
    · refine ⟨pre, b1, mid, b2, post, hl, hpre, hy, hn, hmid, hy2, hn2, ?_, ?_⟩
      · rw [hm]
        simp only [polls_append, polls_singleton, oraclePhase, List.append_assoc]
      · rw [hm]
        simp [callCount_append, callCount_cons, callCount_nil, hz, bootPrologue, oraclePhase,
          warningScreen, layoutFirmwareHash, load_app, Event.is_layoutFirmwareHash]
  · intro pre b1 rest hl hpre h1
    rw [run_reject1 B p h hs pre b1 rest hl hpre h1]
    simp [calls_append, calls_cons, calls_nil, calls_polls _ _ hq hb, bootPrologue,
      oraclePhase, warningScreen, show_halt, Event.is_layoutFirmwareHash]

/-- C14 on Scenario D and on Scenario E. -/
theorem C14_fingerprint_between_accepts_witness :
    callCount Event.is_layoutFirmwareHash
      (main sampleBoard (samplePowerOn 36 0 [⟨true, false⟩, ⟨true, false⟩])).trace = 1 ∧
    calls Event.is_layoutFirmwareHash
      (main sampleBoard (samplePowerOn 36 0 [⟨false, true⟩, ⟨true, false⟩])).trace = false :=
  ⟨by decide,
   (C14_fingerprint_between_accepts sampleBoard
      (samplePowerOn 36 0 [⟨false, true⟩, ⟨true, false⟩]) (by decide)).2
      [] ⟨false, true⟩ [⟨true, false⟩] rfl (by decide) rfl⟩

/-- C18: each stage of `show_unofficial_warning` polls a fresh sample before it
decides.  When the function returns, the samples are idle ones, a first accept,
idle ones, a second accept at a strictly later position, both with `YesUp` and
without `NoUp`, and at least two samples were polled; right after the sample
that gave the first accept the second stage is still polling; with at most one
sample the function does not return. -/
theorem C18_fresh_sample_per_stage (hash : List Nat) (l : List Button) :
    (∀ t, show_unofficial_warning hash l = (t, none) →
      ∃ pre b1 mid b2 post, l = pre ++ b1 :: (mid ++ b2 :: post) ∧
        (∀ b ∈ pre, b.YesUp = false ∧ b.NoUp = false) ∧ b1.YesUp = true ∧ b1.NoUp = false ∧
        (∀ b ∈ mid, b.YesUp = false ∧ b.NoUp = false) ∧ b2.YesUp = true ∧ b2.NoUp = false ∧
        l[pre.length]? = some b1 ∧ l[pre.length + 1 + mid.length]? = some b2 ∧
        pre.length < pre.length + 1 + mid.length ∧
        callCount Event.is_buttonUpdate t = pre.length + 1 + mid.length + 1 ∧
        2 ≤ callCount Event.is_buttonUpdate t) ∧
    (∀ pre b1, l = pre ++ [b1] → (∀ b ∈ pre, b.YesUp = false ∧ b.NoUp = false) →
      b1.YesUp = true → b1.NoUp = false →
      (show_unofficial_warning hash l).2 = some (Exit.polling 2)) ∧
    (l.length ≤ 1 → (show_unofficial_warning hash l).2 ≠ none) := by
  have hcount : ∀ (pre : List Button) (b1 : Button) (mid : List Button) (b2 : Button),
      callCount Event.is_buttonUpdate (warningScreen hash ++ polls (pre ++ [b1])
        ++ layoutFirmwareHash hash ++ polls (mid ++ [b2])) = pre.length + 1 + mid.length + 1 := by
    intro pre b1 mid b2
    simp [callCount_append, callCount_cons, callCount_nil, callCount_polls, warningScreen,
      layoutFirmwareHash, Event.is_buttonUpdate]
    omega
  have hret : ∀ t, show_unofficial_warning hash l = (t, none) →
      ∃ pre b1 mid b2 post, l = pre ++ b1 :: (mid ++ b2 :: post) ∧
        (∀ b ∈ pre, b.YesUp = false ∧ b.NoUp = false) ∧ b1.YesUp = true ∧ b1.NoUp = false ∧
        (∀ b ∈ mid, b.YesUp = false ∧ b.NoUp = false) ∧ b2.YesUp = true ∧ b2.NoUp = false ∧
        t = warningScreen hash ++ polls (pre ++ [b1]) ++ layoutFirmwareHash hash
          ++ polls (mid ++ [b2]) := by
    intro t ht
    rcases samples_cases l with hall | ⟨pre, b1, rest, hl, hpre, h1⟩ |
      ⟨pre, b1, mid, hl, hpre, hy, hn, hmid⟩ |
      ⟨pre, b1, mid, b2, post, hl, hpre, hy, hn, hmid, h2⟩ |
      ⟨pre, b1, mid, b2, post, hl, hpre, hy, hn, hmid, hy2, hn2⟩
    · rw [ceremony_polling1 hash l hall] at ht
      cases ht
    · rw [hl, ceremony_reject1 hash pre b1 rest hpre h1] at ht
      cases ht
    · rw [hl, ceremony_polling2 hash pre b1 mid hpre hy hn hmid] at ht
      cases ht
    · rw [hl, ceremony_reject2 hash pre b1 mid b2 post hpre hy hn hmid h2] at ht
      cases ht
    · rw [hl, ceremony_accept hash pre b1 mid b2 post hpre hy hn hmid hy2 hn2] at ht
      exact ⟨pre, b1, mid, b2, post, hl, hpre, hy, hn, hmid, hy2, hn2,
        (congrArg Prod.fst ht).symm⟩
  refine ⟨?_, ?_, ?_⟩
  · intro t ht
    obtain ⟨pre, b1, mid, b2, post, hl, hpre, hy, hn, hmid, hy2, hn2, htr⟩ := hret t ht
    refine ⟨pre, b1, mid, b2, post, hl, hpre, hy, hn, hmid, hy2, hn2, ?_, ?_, by omega, ?_, ?_⟩
    · rw [hl, List.getElem?_append_right (le_refl _)]
      simp
    · rw [hl, List.getElem?_append_right (by omega)]
      have e : pre.length + 1 + mid.length - pre.length = mid.length + 1 := by omega
      rw [e, List.getElem?_cons_succ, List.getElem?_append_right (le_refl _)]
      simp
    · rw [htr, hcount]
    · rw [htr, hcount]
      omega
  · intro pre b1 hl hpre hy hn
    rw [hl, ceremony_polling2 hash pre b1 [] hpre hy hn (by simp)]
  · intro hlen hnone
    cases hc : show_unofficial_warning hash l with
    | mk t o =>
      rw [hc] at hnone
      simp only at hnone
      subst hnone
      obtain ⟨pre, b1, mid, b2, post, hl, _⟩ := hret t hc
      rw [hl] at hlen
      simp at hlen
      omega

/-- C18 on a single accept sample: the ceremony is left polling in its second stage
and does not return. -/
theorem C18_fresh_sample_per_stage_witness :
    (show_unofficial_warning (List.range 32) [⟨true, false⟩]).2 = some (Exit.polling 2) ∧
    (show_unofficial_warning (List.range 32) [⟨true, false⟩]).2 ≠ none :=
  have h := C18_fresh_sample_per_stage (List.range 32) [⟨true, false⟩]
  ⟨h.2.1 [] ⟨true, false⟩ rfl (by decide) rfl rfl, h.2.2 (by decide)⟩

end Bootloader
